import Mathlib

/-!
# The search-expression parser of `src/services/search/services/parse.js`

A shallow embedding of the recursive-descent parser that turns an already
grouped token structure into an expression tree, together with theorems about
its behaviour.

Conventions of the embedding.

* JavaScript `undefined`/`null` results are `none`; a string-or-undefined value
  is a `JSStr`.
* Reading a property of `undefined` (`tokens[i].token` past the end of the
  token array) or calling a method on `undefined` raises a `TypeError`; this is
  the `Res.raise` outcome.  The source has no `try`/`catch`, so a raised error
  leaves every enclosing function.
* The closure variable `i` and the mutable `searchContext` are threaded through
  explicitly: every sub-parser takes the position and the context and returns
  the new position and the new context.
* Loops and recursion are driven by a fuel argument; running out of fuel is the
  separate outcome `Res.outOfFuel`, never confused with a value or an error.
* Text is a Lean `String`; lengths and offsets into a text count its UTF-16
  code units, as JavaScript does.
-/

namespace Parse

/-! ## JavaScript values and outcomes -/

/-- A JavaScript value that is either a string, `some s`, or `undefined`. -/
abbrev JSStr := Option String

/-- A JavaScript number as the parser meets it: `NaN`, or the Number value of
an integer `n`, which is `n` itself up to `2^53` in size and the nearest double
beyond. -/
inductive JSNum where
  | nan
  | int (n : Int)
deriving DecidableEq

/-- Addition of numbers, `NaN` absorbing.  The parser only adds to `0`, which is
exact for every Number. -/
def JSNum.add : JSNum → JSNum → JSNum
  | .int a, .int b => .int (a + b)
  | _, _ => .nan

/-- Subtraction of numbers, `NaN` absorbing.  The parser only subtracts from
`0`, which is exact for every Number. -/
def JSNum.sub : JSNum → JSNum → JSNum
  | .int a, .int b => .int (a - b)
  | _, _ => .nan

/-- An exception raised by the JavaScript runtime or by a `throw` statement. -/
inductive JSError where
  | typeError
  | error (message : String)
deriving DecidableEq

/-- The outcome of running a piece of the parser: a value, a raised exception,
or exhaustion of the fuel that bounds the embedding's recursion. -/
inductive Res (α : Type) where
  | ok (a : α)
  | raise (e : JSError)
  | outOfFuel

/-- Sequencing of outcomes: an exception or fuel exhaustion ends the run. -/
def Res.bind {α β : Type} : Res α → (α → Res β) → Res β
  | .ok a, f => f a
  | .raise e, _ => .raise e
  | .outOfFuel, _ => .outOfFuel

instance : Monad Res where
  pure := Res.ok
  bind := Res.bind

/-- The JavaScript method `s.startsWith(p)` on strings. -/
def startsWith (s p : String) : Bool := p.data.isPrefixOf s.data

/-- The UTF-16 code units of a character: one unit in the basic plane, a
surrogate pair beyond it. -/
def utf16Units (c : Char) : List Nat :=
  if c.toNat < 65536 then [c.toNat]
  else [55296 + (c.toNat - 65536) / 1024, 56320 + (c.toNat - 65536) % 1024]

/-- The UTF-16 code units of a text: what JavaScript's `.length` counts and
what `.substr` indexes. -/
def unitsOf : List Char → List Nat
  | [] => []
  | c :: cs => utf16Units c ++ unitsOf cs

/-- The character of a single code unit.  A surrogate on its own, which a cut
through a pair leaves behind, has no Lean character and is shown as U+FFFD. -/
def unitChar (u : Nat) : Char :=
  if 55296 ≤ u ∧ u ≤ 57343 then Char.ofNat 65533 else Char.ofNat u

/-- Reads code units back into characters, pairing surrogates; the first
argument is a high surrogate still waiting for its low half. -/
def charsOf : Option Nat → List Nat → List Char
  | none, [] => []
  | some _, [] => [Char.ofNat 65533]
  | none, u :: us =>
    if 55296 ≤ u ∧ u ≤ 56319 then charsOf (some u) us
    else unitChar u :: charsOf none us
  | some h, u :: us =>
    if 56320 ≤ u ∧ u ≤ 57343 then
      Char.ofNat (65536 + (h - 55296) * 1024 + (u - 56320)) :: charsOf none us
    else if 55296 ≤ u ∧ u ≤ 56319 then Char.ofNat 65533 :: charsOf (some u) us
    else Char.ofNat 65533 :: unitChar u :: charsOf none us

/-- The JavaScript property `s.length`: the number of UTF-16 code units. -/
def jsLength (s : String) : Nat := (unitsOf s.data).length

/-- The code units of `s.substr(start, length)` for a non-negative start; a
length that is not positive gives none. -/
def substrUnits (s : String) (start length : Nat) : List Nat :=
  ((unitsOf s.data).drop start).take length

/-- The JavaScript call `s.substr(start, length)`, offsets in UTF-16 code
units. -/
def substr (s : String) (start length : Nat) : String :=
  ⟨charsOf none (substrUnits s start length)⟩

/-- The JavaScript call `s.substr(start)`, the offset in UTF-16 code units. -/
def substrFrom (s : String) (start : Nat) : String :=
  ⟨charsOf none ((unitsOf s.data).drop start)⟩

/-- The text a value contributes to a template literal. -/
def toText : JSStr → String
  | some s => s
  | none => "undefined"

/-- White space skipped by `parseInt` at the start of its argument. -/
def isWhiteSpace (c : Char) : Bool :=
  let n := c.toNat
  (9 ≤ n && n ≤ 13) || n = 32 || n = 160 || n = 5760 || (8192 ≤ n && n ≤ 8202)
    || n = 8232 || n = 8233 || n = 8239 || n = 8287 || n = 12288 || n = 65279

/-- Value of a character as a digit of the given radix. -/
def digitValue (radix : Nat) (c : Char) : Option Nat :=
  let n := c.toNat
  let v : Option Nat :=
    if 48 ≤ n ∧ n ≤ 57 then some (n - 48)
    else if 97 ≤ n ∧ n ≤ 122 then some (n - 87)
    else if 65 ≤ n ∧ n ≤ 90 then some (n - 55)
    else none
  match v with
  | some d => if d < radix then some d else none
  | none => none

/-- Reads the longest run of digits at the head of the list; `none` when there
is no digit at all. -/
def readDigits (radix : Nat) : List Char → Option Nat → Option Nat
  | [], acc => acc
  | c :: cs, acc =>
    match digitValue radix c with
    | some d => readDigits radix cs (some (radix * acc.getD 0 + d))
    | none => acc

/-- The optional sign at the head of the argument of `parseInt`: whether the
number is negative, and what follows the sign. -/
def readSign : List Char → Bool × List Char
  | '-' :: r => (true, r)
  | '+' :: r => (false, r)
  | cs => (false, cs)

/-- The optional `0x` prefix of the argument of `parseInt`: the radix, and what
follows the prefix. -/
def readRadix : List Char → Nat × List Char
  | '0' :: 'x' :: r => (16, r)
  | '0' :: 'X' :: r => (16, r)
  | r => (10, r)

/-- The JavaScript global `parseInt(x)` with no radix argument: leading white
space, an optional sign, an optional `0x` prefix, then digits.  The result is
the Number value of the integer read, `JSNum.int`. -/
def parseInt (x : JSStr) : JSNum :=
  let signed := readSign ((toText x).data.dropWhile isWhiteSpace)
  let based := readRadix signed.2
  match readDigits based.1 based.2 none with
  | none => .nan
  | some n => .int (if signed.1 then - (n : Int) else (n : Int))

/-- A lexical unit: its text, whether it was quoted, and its offsets in the
original query. -/
structure Token where
  token : String
  inQuotes : Bool
  startIndex : Nat
  endIndex : Nat

/-- The input shape: a token, or a parenthesized group, which is a nested
array of the same. -/
inductive TokenGroup where
  | tok (t : Token)
  | group (ts : List TokenGroup)

/-- A comparator as handed back by the collaborator `buildComparator`; the
parser only stores it. -/
structure Comparator where
  operator : JSStr
  comparedValue : JSStr
deriving DecidableEq

/-- The two attribute kinds, the strings `'label'` and `'relation'` of the
source. -/
inductive AttributeType where
  | label
  | relation
deriving DecidableEq

/-- One entry of an order clause: the property path given to
`new ValueExtractor(propertyPath)` and the direction. -/
structure OrderDefinition where
  valueExtractor : List JSStr
  direction : String
deriving DecidableEq

/-- The expression tree.  An operand that the source may leave `undefined`
is an `Option`. -/
inductive Exp where
  | And (subExpressions : List Exp)
  | Or (subExpressions : List Exp)
  | Not (subExpression : Option Exp)
  | ChildOf (subExpression : Option Exp)
  | ParentOf (subExpression : Option Exp)
  | DescendantOf (subExpression : Option Exp)
  | RelationWhere (relationName : JSStr) (subExpression : Option Exp)
  | PropertyComparison (propertyName : JSStr) (comparator : Option Comparator)
  | AttributeExists (attributeType : AttributeType) (attributeName : JSStr)
      (prefixMatch : Bool)
  | LabelComparison (attributeType : AttributeType) (attributeName : JSStr)
      (comparator : Comparator)
  | NoteCacheFulltext (tokens : List JSStr)
  | NoteContentProtectedFulltext (operator : String) (tokens : List JSStr)
  | NoteContentUnprotectedFulltext (operator : String) (tokens : List JSStr)
  | OrderByAndLimit (orderDefinitions : List OrderDefinition)
      (limit : Option JSNum) (subExpression : Option Exp)

/-- The search context: the original query, the three flags, and the two
append-only lists the parser writes. -/
structure SearchContext where
  originalQuery : String
  includeNoteContent : Bool
  fuzzyAttributeSearch : Bool
  excludeArchived : Bool
  errors : List String
  highlightedTokens : List JSStr

/-- The collaborators the parser calls and whose code is outside the parsed
file: `buildComparator`, `PropertyComparisonExp.isProperty`, the validation of
`new ValueExtractor(propertyPath)` (`none` for a falsy result), and
`dayjs().add(delta, unit).format(format)` for the clock of the run.  They are
taken as functions that return. -/
structure Env where
  buildComparator : JSStr → JSStr → Option Comparator
  isProperty : JSStr → Bool
  validate : List JSStr → Option String
  dayjsAddFormat : JSNum → String → String → String

/-- Modelled from the spec: `SearchContext.addError` of `search_context.js`,
which is not among the sources; it "appends to the ordered error list" and
does not raise. -/
def addError (searchContext : SearchContext) (error : String) : SearchContext :=
  { searchContext with errors := searchContext.errors ++ [error] }

/-- The statement `searchContext.highlightedTokens.push(x)`. -/
def pushHighlighted (searchContext : SearchContext) (x : JSStr) : SearchContext :=
  { searchContext with highlightedTokens := searchContext.highlightedTokens ++ [x] }

/-- Modelled from the spec: the normalizing constructor `AndExp.of` of
`expressions/and.js`, which is not among the sources; it "collapses absent
entries, 0→absent, 1→the element, ≥2→composite". -/
def AndExp.of (subExpressions : List (Option Exp)) : Option Exp :=
  match subExpressions.filterMap id with
  | [] => none
  | [e] => some e
  | es => some (Exp.And es)

/-- Modelled from the spec: the normalizing constructor `OrExp.of` of
`expressions/or.js`, which is not among the sources; same rule as
`AndExp.of`, building an `Or`. -/
def OrExp.of (subExpressions : List (Option Exp)) : Option Exp :=
  match subExpressions.filterMap id with
  | [] => none
  | [e] => some e
  | es => some (Exp.Or es)

/-! ## Reading the token array -/

/-- The expression `tokens[i].token`: a `TypeError` past the end of the array,
`undefined` on a nested array, the text on a token. -/
def tokenAt (tokens : List TokenGroup) (i : Nat) : Res JSStr :=
  match tokens[i]? with
  | none => .raise .typeError
  | some (.group _) => .ok none
  | some (.tok t) => .ok (some t.token)

/-- The expression `tokens[i].token` used as the receiver of a string method
(`startsWith`, `match`): a `TypeError` also when it is `undefined`. -/
def stringAt (tokens : List TokenGroup) (i : Nat) : Res String :=
  match tokens[i]? with
  | some (.tok t) => .ok t.token
  | _ => .raise .typeError

/-- The guarded test `i < tokens.length && tokens[i].token === s`. -/
def tokenIs (tokens : List TokenGroup) (i : Nat) (s : String) : Bool :=
  match tokens[i]? with
  | some (.tok t) => t.token = s
  | _ => false

/-- The arrow function `t => t.token` of `getFulltext`. -/
def tokenText : TokenGroup → JSStr
  | .tok t => some t.token
  | .group _ => none

/-! ## The parser -/

/-- Source `getFulltext`, lines 21-40. -/
def getFulltext (tokens : List TokenGroup) (searchContext : SearchContext) :
    Option Exp × SearchContext :=
  let tokens := tokens.map tokenText
  let searchContext :=
    { searchContext with
      highlightedTokens := searchContext.highlightedTokens ++ tokens }
  if tokens.length = 0 then (none, searchContext)
  else if searchContext.includeNoteContent then
    (some (Exp.Or [Exp.NoteCacheFulltext tokens,
      Exp.NoteContentProtectedFulltext "*=*" tokens,
      Exp.NoteContentUnprotectedFulltext "*=*" tokens]), searchContext)
  else (some (Exp.NoteCacheFulltext tokens), searchContext)

/-- Source `isOperator`, lines 42-44: the text matches `^[=<>*]+$`. -/
def isOperator (str : String) : Bool :=
  !str.data.isEmpty && str.data.all (fun c => c = '=' ∨ c = '<' ∨ c = '>' ∨ c = '*')

/-- Source `context`, lines 56-64: the quoted snippet of the original query
around token `i`.  On a nested array both offsets are `undefined`, the
arithmetic gives `NaN`, and the snippet is two ellipses around nothing. -/
def context (searchContext : SearchContext) (tokens : List TokenGroup) (i : Nat) :
    Res String :=
  match tokens[i]? with
  | none => .raise .typeError
  | some (.group _) => .ok "\"......\""
  | some (.tok t) =>
    let startIndex := max 0 (t.startIndex - 20)
    let endIndex := min (jsLength searchContext.originalQuery) (t.endIndex + 20)
    .ok ("\"" ++ (if startIndex ≠ 0 then "..." else "")
      ++ substr searchContext.originalQuery startIndex (endIndex - startIndex)
      ++ (if endIndex ≠ jsLength searchContext.originalQuery then "..." else "") ++ "\"")

/-- The look-ahead of `resolveConstantOperand`, lines 79-88: the signed offset
that follows a reserved date word at position `i`. -/
def operandDelta (tokens : List TokenGroup) (i : Nat) : Res JSNum :=
  if i + 2 < tokens.length then do
    let sign ← tokenAt tokens (i + 1)
    if sign = some "+" then do
      let magnitude ← tokenAt tokens (i + 2)
      pure (JSNum.add (.int 0) (parseInt magnitude))
    else if sign = some "-" then do
      let magnitude ← tokenAt tokens (i + 2)
      pure (JSNum.sub (.int 0) (parseInt magnitude))
    else pure (JSNum.int 0)
  else pure (JSNum.int 0)

/-- Source `resolveConstantOperand`, lines 66-113.  It reads `i` and never
writes it, so only the value and the context are returned. -/
def resolveConstantOperand (env : Env) (tokens : List TokenGroup)
    (searchContext : SearchContext) (i : Nat) : Res (Option String × SearchContext) :=
  match tokens[i]? with
  | none => .raise .typeError
  | some (.group _) => .raise .typeError
  | some (.tok operand) =>
    if operand.inQuotes = false
        ∧ (startsWith operand.token "#" = true ∨ startsWith operand.token "~" = true
          ∨ operand.token = "note") then do
      let c ← context searchContext tokens i
      pure (none, addError searchContext
        ("Error near token \"" ++ operand.token ++ "\" in " ++ c
          ++ ", it's possible to compare with constant only."))
    else if operand.inQuotes = true
        ∨ operand.token ∉ ["now", "today", "month", "year"] then
      pure (some operand.token, searchContext)
    else do
      let delta ← operandDelta tokens i
      if operand.token = "now" then
        pure (some (env.dayjsAddFormat delta "second" "YYYY-MM-DD HH:mm:ss"), searchContext)
      else if operand.token = "today" then
        pure (some (env.dayjsAddFormat delta "day" "YYYY-MM-DD"), searchContext)
      else if operand.token = "month" then
        pure (some (env.dayjsAddFormat delta "month" "YYYY-MM"), searchContext)
      else if operand.token = "year" then
        pure (some (env.dayjsAddFormat delta "year" "YYYY"), searchContext)
      else .raise (.error ("Unrecognized keyword: " ++ operand.token))

/-- Source `parseLabel`, lines 227-257. -/
def parseLabel (env : Env) (tokens : List TokenGroup) (searchContext : SearchContext)
    (i : Nat) (labelName : JSStr) : Res (Option Exp × Nat × SearchContext) := do
  let searchContext := pushHighlighted searchContext labelName
  let followedByOperator ←
    (if i + 2 < tokens.length then do
      let next ← stringAt tokens (i + 1)
      pure (isOperator next)
    else pure false)
  if followedByOperator then do
    let operator ← stringAt tokens (i + 1)
    let i := i + 2
    let (comparedValue, searchContext) ← resolveConstantOperand env tokens searchContext i
    match comparedValue with
    | none => pure (none, i, searchContext)
    | some comparedValue =>
      let searchContext := pushHighlighted searchContext (some comparedValue)
      let operator :=
        if searchContext.fuzzyAttributeSearch = true ∧ operator = "=" then "*=*"
        else operator
      match env.buildComparator (some operator) (some comparedValue) with
      | none => do
        let c ← context searchContext tokens (i - 1)
        pure (none, i, addError searchContext
          ("Can't find operator '" ++ operator ++ "' in " ++ c))
      | some comparator =>
        pure (some (Exp.LabelComparison .label labelName comparator), i, searchContext)
  else
    pure (some (Exp.AttributeExists .label labelName searchContext.fuzzyAttributeSearch),
      i, searchContext)

mutual

/-- Source `parseNoteProperty`, lines 115-209. -/
def parseNoteProperty (env : Env) (tokens : List TokenGroup) :
    Nat → SearchContext → Nat → Res (Option Exp × Nat × SearchContext)
  | 0, _, _ => .outOfFuel
  | fuel + 1, searchContext, i => do
    let dot ← tokenAt tokens i
    if dot ≠ some "." then
      pure (none, i, addError searchContext "Expected \".\" to separate field path")
    else do
    let i := i + 1
    let name ← tokenAt tokens i
    if name = some "content" then do
      let i := i + 1
      let operator ← stringAt tokens i
      if isOperator operator = false then do
        let c ← context searchContext tokens i
        pure (none, i, addError searchContext
          ("After content expected operator, but got \"" ++ operator ++ "\" in " ++ c))
      else do
        let i := i + 1
        let value ← tokenAt tokens i
        pure (some (Exp.Or [Exp.NoteContentUnprotectedFulltext operator [value],
          Exp.NoteContentProtectedFulltext operator [value]]), i, searchContext)
    else if name = some "parents" then do
      let (sub, i, searchContext) ← parseNoteProperty env tokens fuel searchContext (i + 1)
      pure (some (Exp.ChildOf sub), i, searchContext)
    else if name = some "children" then do
      let (sub, i, searchContext) ← parseNoteProperty env tokens fuel searchContext (i + 1)
      pure (some (Exp.ParentOf sub), i, searchContext)
    else if name = some "ancestors" then do
      let (sub, i, searchContext) ← parseNoteProperty env tokens fuel searchContext (i + 1)
      pure (some (Exp.DescendantOf sub), i, searchContext)
    else if name = some "labels" then do
      let next ← tokenAt tokens (i + 1)
      if next ≠ some "." then do
        let c ← context searchContext tokens i
        pure (none, i, addError searchContext
          ("Expected \".\" to separate field path, got \"" ++ toText next ++ "\" in " ++ c))
      else do
        let i := i + 2
        let labelName ← tokenAt tokens i
        parseLabel env tokens searchContext i labelName
    else if name = some "relations" then do
      let next ← tokenAt tokens (i + 1)
      if next ≠ some "." then do
        let c ← context searchContext tokens i
        pure (none, i, addError searchContext
          ("Expected \".\" to separate field path, got \"" ++ toText next ++ "\" in " ++ c))
      else do
        let i := i + 2
        let relationName ← tokenAt tokens i
        parseRelation env tokens fuel searchContext i relationName
    else if name = some "text" then do
      let next ← tokenAt tokens (i + 1)
      if next ≠ some "*=*" then do
        let c ← context searchContext tokens i
        pure (none, i, addError searchContext
          ("Virtual attribute \"note.text\" supports only *=* operator, instead given \""
            ++ toText next ++ "\" in " ++ c))
      else
        let i := i + 2
        match tokens[i]? with
        | none => .raise .typeError
        | some t =>
          let r := getFulltext [t] searchContext
          pure (r.1, i, r.2)
    else if env.isProperty name = true then do
      let operator ← tokenAt tokens (i + 1)
      let comparedValue ← tokenAt tokens (i + 2)
      match env.buildComparator operator comparedValue with
      | none => do
        let c ← context searchContext tokens i
        pure (none, i, addError searchContext
          ("Can't find operator '" ++ toText operator ++ "' in " ++ c))
      | some comparator =>
        pure (some (Exp.PropertyComparison name (some comparator)), i + 2, searchContext)
    else do
      let c ← context searchContext tokens i
      pure (none, i, addError searchContext
        ("Unrecognized note property \"" ++ toText name ++ "\" in " ++ c))

/-- Source `parseRelation`, lines 259-269. -/
def parseRelation (env : Env) (tokens : List TokenGroup) :
    Nat → SearchContext → Nat → JSStr → Res (Option Exp × Nat × SearchContext)
  | 0, _, _, _ => .outOfFuel
  | fuel + 1, searchContext, i, relationName => do
    let searchContext := pushHighlighted searchContext relationName
    if i + 2 < tokens.length ∧ tokenIs tokens (i + 1) "." = true then do
      let (sub, i, searchContext) ← parseNoteProperty env tokens fuel searchContext (i + 1)
      pure (some (Exp.RelationWhere relationName sub), i, searchContext)
    else
      pure (some (Exp.AttributeExists .relation relationName
        searchContext.fuzzyAttributeSearch), i, searchContext)

end

/-- Fuel that lets `parseNoteProperty` and `parseRelation` run to their end on
`tokens`: every recursive call comes after the position moved forward, and a
position past the end raises before any further call. -/
def pathFuel (tokens : List TokenGroup) : Nat := tokens.length + 2

/-- Source `parseAttribute`, lines 211-225. -/
def parseAttribute (env : Env) (tokens : List TokenGroup) (searchContext : SearchContext)
    (i : Nat) (name : String) : Res (Option Exp × Nat × SearchContext) := do
  let isLabel := startsWith name "#"
  let name := substrFrom name 1
  let isNegated := startsWith name "!"
  let name := if isNegated then substrFrom name 1 else name
  let (subExp, i, searchContext) ←
    (if isLabel then parseLabel env tokens searchContext i (some name)
     else parseRelation env tokens (pathFuel tokens) searchContext i (some name))
  pure (if isNegated then some (Exp.Not subExp) else subExp, i, searchContext)

/-- The inner `do ... while` of `parseOrderByAndLimit`, lines 280-286: one
dot-separated property path. -/
def orderByPath (tokens : List TokenGroup) :
    Nat → Nat → List JSStr → Res (List JSStr × Nat)
  | 0, _, _ => .outOfFuel
  | fuel + 1, i, propertyPath => do
    let i := i + 1
    let segment ← tokenAt tokens i
    let propertyPath := propertyPath ++ [segment]
    let i := i + 1
    if tokenIs tokens i "." = true then orderByPath tokens fuel i propertyPath
    else pure (propertyPath, i)

/-- The outer `do ... while` of `parseOrderByAndLimit`, lines 276-303: the
comma-separated order definitions. -/
def orderByDefinitions (env : Env) (tokens : List TokenGroup) :
    Nat → SearchContext → Nat → List OrderDefinition →
      Res (List OrderDefinition × Nat × SearchContext)
  | 0, _, _, _ => .outOfFuel
  | fuel + 1, searchContext, i, orderDefinitions => do
    let (propertyPath, i) ← orderByPath tokens (tokens.length + 1) i []
    let (direction, i) :=
      if tokenIs tokens i "asc" = true then ("asc", i + 1)
      else if tokenIs tokens i "desc" = true then ("desc", i + 1)
      else ("asc", i)
    let searchContext :=
      match env.validate propertyPath with
      | some error => addError searchContext error
      | none => searchContext
    let orderDefinitions := orderDefinitions ++ [⟨propertyPath, direction⟩]
    if tokenIs tokens i "," = true then
      orderByDefinitions env tokens fuel searchContext i orderDefinitions
    else pure (orderDefinitions, i, searchContext)

/-- Source `parseOrderByAndLimit`, lines 271-311.  The node is returned with
its `subExpression` still unset. -/
def parseOrderByAndLimit (env : Env) (tokens : List TokenGroup)
    (searchContext : SearchContext) (i : Nat) :
    Res (List OrderDefinition × Option JSNum × Nat × SearchContext) := do
  let first ← tokenAt tokens i
  let (orderDefinitions, i, searchContext) ←
    (if first = some "orderby" then
      orderByDefinitions env tokens (tokens.length + 1) searchContext i []
     else pure ([], i, searchContext))
  if tokenIs tokens i "limit" = true then do
    let n ← tokenAt tokens (i + 1)
    pure (orderDefinitions, some (parseInt n), i, searchContext)
  else pure (orderDefinitions, none, i, searchContext)

/-- Source `getAggregateExpression`, lines 313-320. -/
def getAggregateExpression (expressions : List (Option Exp)) (op : Option String) :
    Option Exp :=
  if op = none ∨ op = some "and" then AndExp.of expressions
  else if op = some "or" then OrExp.of expressions
  else none

/-- The variables of one run of the main loop of `getExpression`. -/
structure LoopState where
  i : Nat
  expressions : List (Option Exp)
  op : Option String
  level : Nat
  searchContext : SearchContext

/-- How the main loop ends: a `return exp` from inside the loop, or the loop
condition failing with the variables as they then are. -/
inductive LoopResult where
  | returned (exp : Exp) (searchContext : SearchContext)
  | completed (s : LoopState)

/-- The end of the loop body, lines 385-387, and the `i++` of the `for`. -/
def endOfIteration (s : LoopState) : LoopState :=
  { s with
    op := if s.op = none ∧ s.expressions.length > 1 then some "and" else s.op
    i := s.i + 1 }

/-- A `continue`: only the `i++` of the `for` runs. -/
def continueLoop (s : LoopState) : LoopState := { s with i := s.i + 1 }

mutual

/-- Source `getExpression`, lines 46-391. -/
def getExpression (env : Env) :
    Nat → List TokenGroup → SearchContext → Nat → Res (Option Exp × SearchContext)
  | 0, _, _, _ => .outOfFuel
  | fuel + 1, tokens, searchContext, level =>
    if tokens.length = 0 then pure (none, searchContext)
    else do
      let r ← getExpressionLoop env fuel tokens ⟨0, [], none, level, searchContext⟩
      match r with
      | .returned exp searchContext => pure (some exp, searchContext)
      | .completed s => pure (getAggregateExpression s.expressions s.op, s.searchContext)

/-- The `for` loop of `getExpression`, lines 322-388, from the state `s`. -/
def getExpressionLoop (env : Env) :
    Nat → List TokenGroup → LoopState → Res LoopResult
  | 0, _, _ => .outOfFuel
  | fuel + 1, tokens, s =>
    match tokens[s.i]? with
    | none => pure (.completed s)
    | some (.group g) => do
      let (exp, searchContext) ← getExpression env fuel g s.searchContext s.level
      getExpressionLoop env fuel tokens
        (continueLoop { s with
          level := s.level + 1
          expressions := s.expressions ++ [exp]
          searchContext := searchContext })
    | some (.tok t) =>
      let token := t.token
      if token = "#" ∨ token = "~" then
        getExpressionLoop env fuel tokens (continueLoop s)
      else if startsWith token "#" = true ∨ startsWith token "~" = true then do
        let (exp, i, searchContext) ← parseAttribute env tokens s.searchContext s.i token
        getExpressionLoop env fuel tokens
          (endOfIteration { s with
            i := i
            expressions := s.expressions ++ [exp]
            searchContext := searchContext })
      else if token = "orderby" ∨ token = "limit" then
        if s.level ≠ 0 then
          getExpressionLoop env fuel tokens
            (continueLoop { s with
              searchContext := addError s.searchContext
                "orderBy can appear only on the top expression level" })
        else do
          let (orderDefinitions, limit, _, searchContext) ←
            parseOrderByAndLimit env tokens s.searchContext s.i
          pure (.returned
            (Exp.OrderByAndLimit orderDefinitions limit
              (getAggregateExpression s.expressions s.op)) searchContext)
      else if token = "not" then
        match tokens[s.i + 1]? with
        | none => .raise .typeError
        | some (.tok next) =>
          getExpressionLoop env fuel tokens
            (continueLoop { s with
              i := s.i + 1
              searchContext := addError s.searchContext
                ("not keyword should be followed by sub-expression in parenthesis, got "
                  ++ next.token ++ " instead") })
        | some (.group g) => do
          let (exp, searchContext) ← getExpression env fuel g s.searchContext s.level
          getExpressionLoop env fuel tokens
            (endOfIteration { s with
              i := s.i + 1
              level := s.level + 1
              expressions := s.expressions ++ [some (Exp.Not exp)]
              searchContext := searchContext })
      else if token = "note" then do
        let (exp, i, searchContext) ←
          parseNoteProperty env tokens (pathFuel tokens) s.searchContext (s.i + 1)
        getExpressionLoop env fuel tokens
          (continueLoop { s with
            i := i
            expressions := s.expressions ++ [exp]
            searchContext := searchContext })
      else if token = "and" ∨ token = "or" then
        if s.op = none then
          getExpressionLoop env fuel tokens (endOfIteration { s with op := some token })
        else if s.op ≠ some token then
          getExpressionLoop env fuel tokens
            (endOfIteration { s with
              searchContext := addError s.searchContext
                "Mixed usage of AND/OR - always use parenthesis to group AND/OR expressions." })
        else getExpressionLoop env fuel tokens (endOfIteration s)
      else if isOperator token = true then
        getExpressionLoop env fuel tokens
          (endOfIteration { s with
            searchContext := addError s.searchContext
              ("Misplaced or incomplete expression \"" ++ token ++ "\"") })
      else
        getExpressionLoop env fuel tokens
          (endOfIteration { s with
            searchContext := addError s.searchContext
              ("Unrecognized expression \"" ++ token ++ "\"") })

end

mutual

/-- Number of loop iterations and nested calls a token structure can ask for. -/
def TokenGroup.cost : TokenGroup → Nat
  | .tok _ => 0
  | .group ts => TokenGroup.costList ts + 2

/-- The cost of a token array: one per element, plus the cost of its groups. -/
def TokenGroup.costList : List TokenGroup → Nat
  | [] => 0
  | t :: ts => t.cost + 1 + TokenGroup.costList ts

end

/-- Fuel that lets `getExpression` run to its end on `tokens`. -/
def expressionFuel (tokens : List TokenGroup) : Nat := TokenGroup.costList tokens + 2

/-- Source `parse`, lines 393-399.  The array literal is evaluated left to
right: the archived filter, the full text, the expression. -/
def parse (env : Env) (fulltextTokens : List Token) (expressionTokens : List TokenGroup)
    (searchContext : SearchContext) : Res (Option Exp × SearchContext) := do
  let archived : Option Exp :=
    if searchContext.excludeArchived = true then
      some (Exp.PropertyComparison (some "isarchived")
        (env.buildComparator (some "=") (some "false")))
    else none
  let fulltext := getFulltext (fulltextTokens.map TokenGroup.tok) searchContext
  let (exp, searchContext) ←
    getExpression env (expressionFuel expressionTokens) expressionTokens fulltext.2 0
  pure (AndExp.of [archived, fulltext.1, exp], searchContext)

/-! ## Predicates the theorems are stated with -/

mutual

/-- Whether an `OrderByAndLimit` node occurs anywhere in the tree, the root
included. -/
def Exp.hasOrderBy : Exp → Bool
  | .And es => hasOrderByList es
  | .Or es => hasOrderByList es
  | .Not e => hasOrderByOption e
  | .ChildOf e => hasOrderByOption e
  | .ParentOf e => hasOrderByOption e
  | .DescendantOf e => hasOrderByOption e
  | .RelationWhere _ e => hasOrderByOption e
  | .OrderByAndLimit _ _ _ => true
  | _ => false

/-- Whether an `OrderByAndLimit` node occurs in one of the trees. -/
def hasOrderByList : List Exp → Bool
  | [] => false
  | e :: es => e.hasOrderBy || hasOrderByList es

/-- Whether an `OrderByAndLimit` node occurs in a possibly absent tree. -/
def hasOrderByOption : Option Exp → Bool
  | none => false
  | some e => e.hasOrderBy

end

mutual

/-- No token of the structure has the text `orderby` or `limit`. -/
def TokenGroup.orderFree : TokenGroup → Bool
  | .tok t => t.token ≠ "orderby" ∧ t.token ≠ "limit"
  | .group ts => orderFreeList ts

/-- No token of the array, at any depth, has the text `orderby` or `limit`. -/
def orderFreeList : List TokenGroup → Bool
  | [] => true
  | t :: ts => t.orderFree && orderFreeList ts

end

mutual

/-- Whether some node of the tree has an absent operand. -/
def Exp.hasAbsentOperand : Exp → Bool
  | .And es => hasAbsentOperandList es
  | .Or es => hasAbsentOperandList es
  | .Not e => absentOperand e
  | .ChildOf e => absentOperand e
  | .ParentOf e => absentOperand e
  | .DescendantOf e => absentOperand e
  | .RelationWhere _ e => absentOperand e
  | .OrderByAndLimit _ _ e => absentOperand e
  | _ => false

/-- Whether some node of one of the trees has an absent operand. -/
def hasAbsentOperandList : List Exp → Bool
  | [] => false
  | e :: es => e.hasAbsentOperand || hasAbsentOperandList es

/-- An operand that is absent, or that holds a node with an absent operand. -/
def absentOperand : Option Exp → Bool
  | none => true
  | some e => e.hasAbsentOperand

end

/-- One pass through the body of the main loop that goes on to a next pass:
from the variables `s`, with `fuel` left for the nested calls, to the
variables of the next pass.  One constructor for each branch of the body that
does not leave the loop. -/
inductive Iteration (env : Env) (fuel : Nat) (tokens : List TokenGroup) (s : LoopState) :
    LoopState → Prop where
  | group (g : List TokenGroup) (r : Option Exp × SearchContext)
      (h : tokens[s.i]? = some (.group g))
      (hr : getExpression env fuel g s.searchContext s.level = .ok r) :
      Iteration env fuel tokens s
        (continueLoop { s with
          level := s.level + 1
          expressions := s.expressions ++ [r.1]
          searchContext := r.2 })
  | bare (t : Token) (h : tokens[s.i]? = some (.tok t))
      (ht : t.token = "#" ∨ t.token = "~") :
      Iteration env fuel tokens s (continueLoop s)
  | attr (t : Token) (r : Option Exp × Nat × SearchContext)
      (h : tokens[s.i]? = some (.tok t))
      (h1 : ¬ (t.token = "#" ∨ t.token = "~"))
      (h2 : startsWith t.token "#" = true ∨ startsWith t.token "~" = true)
      (hr : parseAttribute env tokens s.searchContext s.i t.token = .ok r) :
      Iteration env fuel tokens s
        (endOfIteration { s with
          i := r.2.1
          expressions := s.expressions ++ [r.1]
          searchContext := r.2.2 })
  | orderNested (t : Token) (h : tokens[s.i]? = some (.tok t))
      (ht : t.token = "orderby" ∨ t.token = "limit") (hl : s.level ≠ 0) :
      Iteration env fuel tokens s
        (continueLoop { s with
          searchContext := addError s.searchContext
            "orderBy can appear only on the top expression level" })
  | notToken (t next : Token) (h : tokens[s.i]? = some (.tok t)) (ht : t.token = "not")
      (hn : tokens[s.i + 1]? = some (.tok next)) :
      Iteration env fuel tokens s
        (continueLoop { s with
          i := s.i + 1
          searchContext := addError s.searchContext
            ("not keyword should be followed by sub-expression in parenthesis, got "
              ++ next.token ++ " instead") })
  | notGroup (t : Token) (g : List TokenGroup) (r : Option Exp × SearchContext)
      (h : tokens[s.i]? = some (.tok t)) (ht : t.token = "not")
      (hn : tokens[s.i + 1]? = some (.group g))
      (hr : getExpression env fuel g s.searchContext s.level = .ok r) :
      Iteration env fuel tokens s
        (endOfIteration { s with
          i := s.i + 1
          level := s.level + 1
          expressions := s.expressions ++ [some (Exp.Not r.1)]
          searchContext := r.2 })
  | note (t : Token) (r : Option Exp × Nat × SearchContext)
      (h : tokens[s.i]? = some (.tok t)) (ht : t.token = "note")
      (hr : parseNoteProperty env tokens (pathFuel tokens) s.searchContext (s.i + 1) = .ok r) :
      Iteration env fuel tokens s
        (continueLoop { s with
          i := r.2.1
          expressions := s.expressions ++ [r.1]
          searchContext := r.2.2 })
  | connective (t : Token) (h : tokens[s.i]? = some (.tok t))
      (ht : t.token = "and" ∨ t.token = "or") :
      Iteration env fuel tokens s
        (endOfIteration { s with
          op := if s.op = none then some t.token else s.op
          searchContext :=
            if s.op ≠ none ∧ s.op ≠ some t.token then
              addError s.searchContext
                "Mixed usage of AND/OR - always use parenthesis to group AND/OR expressions."
            else s.searchContext })
  | operator (t : Token) (h : tokens[s.i]? = some (.tok t))
      (ht : isOperator t.token = true) :
      Iteration env fuel tokens s
        (endOfIteration { s with
          searchContext := addError s.searchContext
            ("Misplaced or incomplete expression \"" ++ t.token ++ "\"") })
  | other (t : Token) (h : tokens[s.i]? = some (.tok t))
      (h1 : ¬ (t.token = "#" ∨ t.token = "~"))
      (h2 : ¬ (startsWith t.token "#" = true ∨ startsWith t.token "~" = true))
      (h3 : ¬ (t.token = "orderby" ∨ t.token = "limit"))
      (h4 : t.token ≠ "not") (h5 : t.token ≠ "note")
      (h6 : ¬ (t.token = "and" ∨ t.token = "or"))
      (h7 : isOperator t.token = false) :
      Iteration env fuel tokens s
        (endOfIteration { s with
          searchContext := addError s.searchContext
            ("Unrecognized expression \"" ++ t.token ++ "\"") })

/-- The operator slot holds what the source can put there: `null`, `'and'` or
`'or'`. -/
def validOp (op : Option String) : Prop := op = none ∨ op = some "and" ∨ op = some "or"

/-! ## The order clause in the words of the specification -/

/-- Days since 1970-01-01 of a date of the proleptic Gregorian calendar. -/
def daysFromCivil (y m d : Int) : Int :=
  let y1 := if m ≤ 2 then y - 1 else y
  let era := y1 / 400
  let yoe := y1 - era * 400
  let doy := (153 * ((m + 9) % 12) + 2) / 5 + d - 1
  era * 146097 + (yoe * 365 + yoe / 4 - yoe / 100 + doy) - 719468

/-- The year, month and day of a number of days since 1970-01-01. -/
def civilFromDays (days : Int) : Int × Int × Int :=
  let z := days + 719468
  let era := z / 146097
  let doe := z - era * 146097
  let yoe := (doe - doe / 1460 + doe / 36524 - doe / 146096) / 365
  let doy := doe - (365 * yoe + yoe / 4 - yoe / 100)
  let mp := (5 * doy + 2) / 153
  let m := if mp < 10 then mp + 3 else mp - 9
  (if m ≤ 2 then yoe + era * 400 + 1 else yoe + era * 400, m, doy - (153 * mp + 2) / 5 + 1)

/-- Number of days of a month. -/
def daysInMonth (y m : Int) : Int :=
  if m = 2 then (if y % 4 = 0 ∧ (y % 100 ≠ 0 ∨ y % 400 = 0) then 29 else 28)
  else if m = 4 ∨ m = 6 ∨ m = 9 ∨ m = 11 then 30 else 31

/-- A number written with at least `width` decimal digits. -/
def padded (width : Nat) (n : Int) : String :=
  let digits := Nat.toDigits 10 n.toNat
  ⟨List.replicate (width - digits.length) '0' ++ digits⟩

/-- Modelled from the spec: the clock and the date library (`dayjs`) behind
"compute current instant plus delta and format it", for a sample run whose
clock stands at 2026-11-05 09:30:15.  The instant is shifted by `delta`
seconds, days, months or years (a day of month past the end of the new month
is brought back to its last day) and written in one of the four patterns the
parser asks for; a `NaN` shift gives `Invalid Date`. -/
def sampleDayjs (delta : JSNum) (unit format : String) : String :=
  match delta with
  | .nan => "Invalid Date"
  | .int n =>
    let seconds : Int := 9 * 3600 + 30 * 60 + 15 + (if unit = "second" then n else 0)
    let days : Int := daysFromCivil 2026 11 5 + seconds / 86400
      + (if unit = "day" then n else 0)
    let civil := civilFromDays days
    let months : Int := civil.1 * 12 + (civil.2.1 - 1)
      + (if unit = "month" then n else if unit = "year" then 12 * n else 0)
    let y := months / 12
    let m := months % 12 + 1
    let d := min civil.2.2 (daysInMonth y m)
    let time := seconds % 86400
    let date := padded 4 y ++ "-" ++ padded 2 m ++ "-" ++ padded 2 d
    if format = "YYYY-MM-DD HH:mm:ss" then
      date ++ " " ++ padded 2 (time / 3600) ++ ":" ++ padded 2 (time % 3600 / 60) ++ ":"
        ++ padded 2 (time % 60)
    else if format = "YYYY-MM-DD" then date
    else if format = "YYYY-MM" then padded 4 y ++ "-" ++ padded 2 m
    else if format = "YYYY" then padded 4 y
    else format

/-- Modelled from the spec: the collaborators `buildComparator`
(`build_comparator.js`), `PropertyComparisonExp.isProperty`
(`expressions/property_comparison.js`) and `ValueExtractor`
(`value_extractor.js`), none of which is among the sources.  The comparator
builder "recognizes operators including at least `=`, `<`, `>`,
wildcard/contains forms, and `*=*`; returns no result for unrecognized
operators"; the property test is a "membership test for recognized note
properties (e.g. `dateCreated`, `isarchived`, `title`, …)"; the sample paths
validate; the clock is that of `sampleDayjs`. -/
def specEnv : Env where
  buildComparator := fun operator comparedValue =>
    if operator ∈ [some "=", some "!=", some "<", some "<=", some ">", some ">=",
        some "*=", some "=*", some "*=*"] then some ⟨operator, comparedValue⟩
    else none
  isProperty := fun name => name ∈ [some "dateCreated", some "isarchived", some "title"]
  validate := fun _ => none
  dayjsAddFormat := sampleDayjs

/-- A search context with the given query, all flags off and both lists empty. -/
def freshContext (originalQuery : String) : SearchContext :=
  ⟨originalQuery, false, false, false, [], []⟩

/-- An unquoted token with the given text and offsets. -/
def word (text : String) (startIndex endIndex : Nat) : TokenGroup :=
  .tok ⟨text, false, startIndex, endIndex⟩

/-! ## Basic facts -/

@[simp] theorem Res.pure_eq {α : Type} (a : α) : (pure a : Res α) = Res.ok a := rfl
@[simp] theorem Res.ok_bind {α β : Type} (a : α) (f : α → Res β) : (Res.ok a >>= f) = f a := rfl
@[simp] theorem Res.raise_bind {α β : Type} (e : JSError) (f : α → Res β) :
    (Res.raise e >>= f) = Res.raise e := rfl
@[simp] theorem Res.outOfFuel_bind {α β : Type} (f : α → Res β) :
    (Res.outOfFuel >>= f) = Res.outOfFuel := rfl

theorem Res.bind_eq_ok {α β : Type} {x : Res α} {f : α → Res β} {b : β} :
    (x >>= f) = Res.ok b ↔ ∃ a, x = Res.ok a ∧ f a = Res.ok b := by
  cases x <;> simp

@[simp] theorem startsWith_hash_append (L : String) : startsWith ("#" ++ L) "#" = true := by
  simp [startsWith, List.isPrefixOf]

@[simp] theorem startsWith_tilde_append (L : String) : startsWith ("~" ++ L) "~" = true := by
  simp [startsWith, List.isPrefixOf]

theorem char_toNat_range (c : Char) :
    c.toNat < 55296 ∨ (57343 < c.toNat ∧ c.toNat < 1114112) := by
  have h := c.valid
  simp only [UInt32.isValidChar, Nat.isValidChar] at h
  exact h

theorem charsOf_unitsOf (cs : List Char) : charsOf none (unitsOf cs) = cs := by
  induction cs with
  | nil => rfl
  | cons c cs ih =>
    have hr := char_toNat_range c
    unfold unitsOf utf16Units
    by_cases hc : c.toNat < 65536
    · simp only [hc, if_true, List.singleton_append, charsOf]
      have h1 : ¬ (55296 ≤ c.toNat ∧ c.toNat ≤ 56319) := by omega
      have h2 : ¬ (55296 ≤ c.toNat ∧ c.toNat ≤ 57343) := by omega
      simp only [h1, if_false, unitChar, h2, ih, Char.ofNat_toNat]
    · simp only [hc, if_false, List.cons_append, List.nil_append, charsOf]
      have h1 : 55296 ≤ 55296 + (c.toNat - 65536) / 1024
          ∧ 55296 + (c.toNat - 65536) / 1024 ≤ 56319 := by omega
      have h2 : 56320 ≤ 56320 + (c.toNat - 65536) % 1024
          ∧ 56320 + (c.toNat - 65536) % 1024 ≤ 57343 := by omega
      have h3 : 65536 + (55296 + (c.toNat - 65536) / 1024 - 55296) * 1024
          + (56320 + (c.toNat - 65536) % 1024 - 56320) = c.toNat := by omega
      simp only [h1, h2, and_self, if_true, h3, ih, Char.ofNat_toNat]

@[simp] theorem substrFrom_hash_append (L : String) : substrFrom ("#" ++ L) 1 = L := by
  have h : unitsOf ("#" ++ L).data = 35 :: unitsOf L.data := by
    simp only [String.data_append]
    rfl
  simp only [substrFrom, h, List.drop_succ_cons, List.drop_zero, charsOf_unitsOf]

@[simp] theorem substrFrom_tilde_append (L : String) : substrFrom ("~" ++ L) 1 = L := by
  have h : unitsOf ("~" ++ L).data = 126 :: unitsOf L.data := by
    simp only [String.data_append]
    rfl
  simp only [substrFrom, h, List.drop_succ_cons, List.drop_zero, charsOf_unitsOf]

theorem hash_append_ne_hash (L : String) (h : L ≠ "") : "#" ++ L ≠ "#" := by
  intro hc
  apply h
  have := congrArg String.data hc
  simp at this
  exact String.ext this

theorem hash_append_ne_tilde (L : String) : "#" ++ L ≠ "~" := by
  intro hc
  have := congrArg String.data hc
  simp at this

theorem tokenAt_of_lt (tokens : List TokenGroup) (i : Nat) (h : i < tokens.length) :
    ∃ v, tokenAt tokens i = .ok v := by
  unfold tokenAt
  rw [List.getElem?_eq_getElem h]
  cases tokens[i] <;> exact ⟨_, rfl⟩

/-! ### One iteration of the main loop, branch by branch -/

theorem getExpressionLoop_done (env : Env) (fuel : Nat) (tokens : List TokenGroup)
    (s : LoopState) (h : tokens[s.i]? = none) :
    getExpressionLoop env (fuel + 1) tokens s = .ok (.completed s) := by
  rw [getExpressionLoop, h]; rfl

theorem getExpressionLoop_group (env : Env) (fuel : Nat) (tokens : List TokenGroup)
    (s : LoopState) (g : List TokenGroup) (h : tokens[s.i]? = some (.group g)) :
    getExpressionLoop env (fuel + 1) tokens s
      = (getExpression env fuel g s.searchContext s.level >>= fun r =>
          getExpressionLoop env fuel tokens
            (continueLoop { s with
              level := s.level + 1
              expressions := s.expressions ++ [r.1]
              searchContext := r.2 })) := by
  rw [getExpressionLoop, h]

theorem getExpressionLoop_bare (env : Env) (fuel : Nat) (tokens : List TokenGroup)
    (s : LoopState) (t : Token) (h : tokens[s.i]? = some (.tok t))
    (h1 : t.token = "#" ∨ t.token = "~") :
    getExpressionLoop env (fuel + 1) tokens s
      = getExpressionLoop env fuel tokens (continueLoop s) := by
  rw [getExpressionLoop, h]
  simp only [h1, if_true]

theorem getExpressionLoop_attribute (env : Env) (fuel : Nat) (tokens : List TokenGroup)
    (s : LoopState) (t : Token) (h : tokens[s.i]? = some (.tok t))
    (h1 : ¬ (t.token = "#" ∨ t.token = "~"))
    (h2 : startsWith t.token "#" = true ∨ startsWith t.token "~" = true) :
    getExpressionLoop env (fuel + 1) tokens s
      = (parseAttribute env tokens s.searchContext s.i t.token >>= fun r =>
          getExpressionLoop env fuel tokens
            (endOfIteration { s with
              i := r.2.1
              expressions := s.expressions ++ [r.1]
              searchContext := r.2.2 })) := by
  rw [getExpressionLoop, h]
  simp only [h1, h2, if_false, if_true]

theorem getExpressionLoop_order_nested (env : Env) (fuel : Nat) (tokens : List TokenGroup)
    (s : LoopState) (t : Token) (h : tokens[s.i]? = some (.tok t))
    (h1 : t.token = "orderby" ∨ t.token = "limit") (hl : s.level ≠ 0) :
    getExpressionLoop env (fuel + 1) tokens s
      = getExpressionLoop env fuel tokens
          (continueLoop { s with
            searchContext := addError s.searchContext
              "orderBy can appear only on the top expression level" }) := by
  have a1 : ¬ (t.token = "#" ∨ t.token = "~") := by
    rcases h1 with h1 | h1 <;> rw [h1] <;> try decide
  have a2 : ¬ (startsWith t.token "#" = true ∨ startsWith t.token "~" = true) := by
    rcases h1 with h1 | h1 <;> rw [h1] <;> try decide
  rw [getExpressionLoop, h]
  simp only [a1, a2, h1, hl, if_false, if_true, ne_eq, not_false_eq_true]

theorem getExpressionLoop_order_top (env : Env) (fuel : Nat) (tokens : List TokenGroup)
    (s : LoopState) (t : Token) (h : tokens[s.i]? = some (.tok t))
    (h1 : t.token = "orderby" ∨ t.token = "limit") (hl : s.level = 0) :
    getExpressionLoop env (fuel + 1) tokens s
      = (parseOrderByAndLimit env tokens s.searchContext s.i >>= fun r =>
          .ok (.returned
            (Exp.OrderByAndLimit r.1 r.2.1 (getAggregateExpression s.expressions s.op))
            r.2.2.2)) := by
  have a1 : ¬ (t.token = "#" ∨ t.token = "~") := by
    rcases h1 with h1 | h1 <;> rw [h1] <;> try decide
  have a2 : ¬ (startsWith t.token "#" = true ∨ startsWith t.token "~" = true) := by
    rcases h1 with h1 | h1 <;> rw [h1] <;> try decide
  rw [getExpressionLoop, h]
  simp only [a1, a2, h1, hl, if_false, if_true, ne_eq, not_true_eq_false]
  rfl

theorem getExpressionLoop_not_end (env : Env) (fuel : Nat) (tokens : List TokenGroup)
    (s : LoopState) (t : Token) (h : tokens[s.i]? = some (.tok t))
    (h1 : t.token = "not") (hn : tokens[s.i + 1]? = none) :
    getExpressionLoop env (fuel + 1) tokens s = .raise .typeError := by
  rw [getExpressionLoop, h]
  simp only [h1, hn]
  rfl

theorem getExpressionLoop_not_token (env : Env) (fuel : Nat) (tokens : List TokenGroup)
    (s : LoopState) (t : Token) (h : tokens[s.i]? = some (.tok t))
    (h1 : t.token = "not") (next : Token) (hn : tokens[s.i + 1]? = some (.tok next)) :
    getExpressionLoop env (fuel + 1) tokens s
      = getExpressionLoop env fuel tokens
          (continueLoop { s with
            i := s.i + 1
            searchContext := addError s.searchContext
              ("not keyword should be followed by sub-expression in parenthesis, got "
                ++ next.token ++ " instead") }) := by
  rw [getExpressionLoop, h]
  simp only [h1, hn]
  rfl

theorem getExpressionLoop_not_group (env : Env) (fuel : Nat) (tokens : List TokenGroup)
    (s : LoopState) (t : Token) (h : tokens[s.i]? = some (.tok t))
    (h1 : t.token = "not") (g : List TokenGroup) (hn : tokens[s.i + 1]? = some (.group g)) :
    getExpressionLoop env (fuel + 1) tokens s
      = (getExpression env fuel g s.searchContext s.level >>= fun r =>
          getExpressionLoop env fuel tokens
            (endOfIteration { s with
              i := s.i + 1
              level := s.level + 1
              expressions := s.expressions ++ [some (Exp.Not r.1)]
              searchContext := r.2 })) := by
  rw [getExpressionLoop, h]
  simp only [h1, hn]
  rfl

theorem getExpressionLoop_note (env : Env) (fuel : Nat) (tokens : List TokenGroup)
    (s : LoopState) (t : Token) (h : tokens[s.i]? = some (.tok t))
    (h1 : t.token = "note") :
    getExpressionLoop env (fuel + 1) tokens s
      = (parseNoteProperty env tokens (pathFuel tokens) s.searchContext (s.i + 1) >>= fun r =>
          getExpressionLoop env fuel tokens
            (continueLoop { s with
              i := r.2.1
              expressions := s.expressions ++ [r.1]
              searchContext := r.2.2 })) := by
  rw [getExpressionLoop, h]
  simp only [h1]
  rfl

theorem getExpressionLoop_connective (env : Env) (fuel : Nat) (tokens : List TokenGroup)
    (s : LoopState) (t : Token) (h : tokens[s.i]? = some (.tok t))
    (h1 : t.token = "and" ∨ t.token = "or") :
    getExpressionLoop env (fuel + 1) tokens s
      = getExpressionLoop env fuel tokens
          (endOfIteration { s with
            op := if s.op = none then some t.token else s.op
            searchContext :=
              if s.op ≠ none ∧ s.op ≠ some t.token then
                addError s.searchContext
                  "Mixed usage of AND/OR - always use parenthesis to group AND/OR expressions."
              else s.searchContext }) := by
  have a1 : ¬ (t.token = "#" ∨ t.token = "~") := by
    rcases h1 with h1 | h1 <;> rw [h1] <;> try decide
  have a2 : ¬ (startsWith t.token "#" = true ∨ startsWith t.token "~" = true) := by
    rcases h1 with h1 | h1 <;> rw [h1] <;> try decide
  have a3 : ¬ (t.token = "orderby" ∨ t.token = "limit") := by
    rcases h1 with h1 | h1 <;> rw [h1] <;> try decide
  have a4 : t.token ≠ "not" := by
    rcases h1 with h1 | h1 <;> rw [h1] <;> try decide
  have a5 : t.token ≠ "note" := by
    rcases h1 with h1 | h1 <;> rw [h1] <;> try decide
  rw [getExpressionLoop, h]
  simp only [a1, a2, a3, a4, a5, h1, if_false, if_true]
  by_cases ho : s.op = none
  · simp [ho]
  · by_cases hs : s.op = some t.token
    · simp only [ho, hs, if_false, if_true, ne_eq, not_true_eq_false, and_false]
      cases s
      simp_all
    · simp [ho, hs]

theorem startsWith_of_isOperator (str p : String) (h : isOperator str = true)
    (hp : isOperator p = false) (hp1 : p.data.length = 1) : startsWith str p = false := by
  cases hd : str.data with
  | nil => simp [isOperator, hd] at h
  | cons c cs =>
    match hpd : p.data, hp1 with
    | [a], _ =>
      simp only [isOperator, hd, hpd, List.isEmpty_cons, Bool.not_false, List.all_cons,
        List.all_nil, Bool.and_true, Bool.true_and, Bool.and_eq_true, decide_eq_true_eq,
        decide_eq_false_iff_not, startsWith, List.isPrefixOf] at h hp ⊢
      by_cases hac : a = c
      · subst hac; exact absurd h.1 hp
      · simp [hac]

theorem getExpressionLoop_operator (env : Env) (fuel : Nat) (tokens : List TokenGroup)
    (s : LoopState) (t : Token) (h : tokens[s.i]? = some (.tok t))
    (h1 : isOperator t.token = true) :
    getExpressionLoop env (fuel + 1) tokens s
      = getExpressionLoop env fuel tokens
          (endOfIteration { s with
            searchContext := addError s.searchContext
              ("Misplaced or incomplete expression \"" ++ t.token ++ "\"") }) := by
  have ne : ∀ w : String, isOperator w = false → t.token ≠ w := by
    intro w hw hc
    rw [hc, hw] at h1
    exact Bool.noConfusion h1
  have a1 : ¬ (t.token = "#" ∨ t.token = "~") := by
    rintro (hc | hc)
    · exact ne _ (by decide) hc
    · exact ne _ (by decide) hc
  have a2 : ¬ (startsWith t.token "#" = true ∨ startsWith t.token "~" = true) := by
    rw [startsWith_of_isOperator _ _ h1 (by decide) (by decide),
      startsWith_of_isOperator _ _ h1 (by decide) (by decide)]
    simp
  have a3 : ¬ (t.token = "orderby" ∨ t.token = "limit") := by
    rintro (hc | hc)
    · exact ne _ (by decide) hc
    · exact ne _ (by decide) hc
  have a4 : t.token ≠ "not" := ne _ (by decide)
  have a5 : t.token ≠ "note" := ne _ (by decide)
  have a6 : ¬ (t.token = "and" ∨ t.token = "or") := by
    rintro (hc | hc)
    · exact ne _ (by decide) hc
    · exact ne _ (by decide) hc
  rw [getExpressionLoop, h]
  simp only [a1, a2, a3, a4, a5, a6, h1, if_false, if_true]

theorem getExpressionLoop_other (env : Env) (fuel : Nat) (tokens : List TokenGroup)
    (s : LoopState) (t : Token) (h : tokens[s.i]? = some (.tok t))
    (h1 : ¬ (t.token = "#" ∨ t.token = "~"))
    (h2 : ¬ (startsWith t.token "#" = true ∨ startsWith t.token "~" = true))
    (h3 : ¬ (t.token = "orderby" ∨ t.token = "limit"))
    (h4 : t.token ≠ "not") (h5 : t.token ≠ "note")
    (h6 : ¬ (t.token = "and" ∨ t.token = "or"))
    (h7 : isOperator t.token = false) :
    getExpressionLoop env (fuel + 1) tokens s
      = getExpressionLoop env fuel tokens
          (endOfIteration { s with
            searchContext := addError s.searchContext
              ("Unrecognized expression \"" ++ t.token ++ "\"") }) := by
  rw [getExpressionLoop, h]
  simp only [h1, h2, h3, h4, h5, h6, h7, if_false]
  simp

/-! ### Reading tokens through their texts -/

theorem getElem?_of_texts (tokens : List TokenGroup) (i : Nat) (a : String)
    (h : (tokens.map tokenText)[i]? = some (some a)) :
    ∃ t, tokens[i]? = some (.tok t) ∧ t.token = a := by
  rw [List.getElem?_map] at h
  cases ht : tokens[i]? with
  | none => simp [ht] at h
  | some t =>
    cases t with
    | tok t =>
      refine ⟨t, rfl, ?_⟩
      simpa [ht, tokenText] using h
    | group g => simp [ht, tokenText] at h

/-! ### `parseNoteProperty`, branch by branch -/

theorem parseNoteProperty_parents (env : Env) (tokens : List TokenGroup) (fuel : Nat)
    (searchContext : SearchContext) (i : Nat)
    (h0 : tokenAt tokens i = .ok (some "."))
    (h1 : tokenAt tokens (i + 1) = .ok (some "parents")) :
    parseNoteProperty env tokens (fuel + 1) searchContext i
      = (parseNoteProperty env tokens fuel searchContext (i + 1 + 1) >>= fun r =>
          .ok (some (Exp.ChildOf r.1), r.2.1, r.2.2)) := by
  rw [parseNoteProperty]
  simp only [h0, h1, Res.ok_bind]
  rfl

theorem parseNoteProperty_children (env : Env) (tokens : List TokenGroup) (fuel : Nat)
    (searchContext : SearchContext) (i : Nat)
    (h0 : tokenAt tokens i = .ok (some "."))
    (h1 : tokenAt tokens (i + 1) = .ok (some "children")) :
    parseNoteProperty env tokens (fuel + 1) searchContext i
      = (parseNoteProperty env tokens fuel searchContext (i + 1 + 1) >>= fun r =>
          .ok (some (Exp.ParentOf r.1), r.2.1, r.2.2)) := by
  rw [parseNoteProperty]
  simp only [h0, h1, Res.ok_bind]
  rfl

theorem parseNoteProperty_ancestors (env : Env) (tokens : List TokenGroup) (fuel : Nat)
    (searchContext : SearchContext) (i : Nat)
    (h0 : tokenAt tokens i = .ok (some "."))
    (h1 : tokenAt tokens (i + 1) = .ok (some "ancestors")) :
    parseNoteProperty env tokens (fuel + 1) searchContext i
      = (parseNoteProperty env tokens fuel searchContext (i + 1 + 1) >>= fun r =>
          .ok (some (Exp.DescendantOf r.1), r.2.1, r.2.2)) := by
  rw [parseNoteProperty]
  simp only [h0, h1, Res.ok_bind]
  rfl

theorem parseNoteProperty_labels (env : Env) (tokens : List TokenGroup) (fuel : Nat)
    (searchContext : SearchContext) (i : Nat) (labelName : JSStr)
    (h0 : tokenAt tokens i = .ok (some "."))
    (h1 : tokenAt tokens (i + 1) = .ok (some "labels"))
    (h2 : tokenAt tokens (i + 1 + 1) = .ok (some "."))
    (h3 : tokenAt tokens (i + 1 + 2) = .ok labelName) :
    parseNoteProperty env tokens (fuel + 1) searchContext i
      = parseLabel env tokens searchContext (i + 1 + 2) labelName := by
  rw [parseNoteProperty]
  simp only [h0, h1, h2, h3, Res.ok_bind]
  rfl

/-- The names `parseNoteProperty` tests for before it asks `isProperty`. -/
theorem parseNoteProperty_unrecognized (env : Env) (tokens : List TokenGroup) (fuel : Nat)
    (searchContext : SearchContext) (i : Nat) (name : JSStr) (c : String)
    (h0 : tokenAt tokens i = .ok (some "."))
    (h1 : tokenAt tokens (i + 1) = .ok name)
    (hn : name ∉ [some "content", some "parents", some "children", some "ancestors",
      some "labels", some "relations", some "text"])
    (hp : env.isProperty name = false)
    (hc : context searchContext tokens (i + 1) = .ok c) :
    parseNoteProperty env tokens (fuel + 1) searchContext i
      = .ok (none, i + 1, addError searchContext
          ("Unrecognized note property \"" ++ toText name ++ "\" in " ++ c)) := by
  simp only [List.mem_cons, List.mem_singleton, List.not_mem_nil, or_false, not_or] at hn
  obtain ⟨n1, n2, n3, n4, n5, n6, n7⟩ := hn
  rw [parseNoteProperty]
  simp only [h0, h1, Res.ok_bind, n1, n2, n3, n4, n5, n6, n7, hp, hc]
  simp

theorem parseLabel_exists (env : Env) (tokens : List TokenGroup)
    (searchContext : SearchContext) (i : Nat) (labelName : JSStr)
    (h : ¬ (i + 2 < tokens.length) ∨ ∃ next, stringAt tokens (i + 1) = .ok next
      ∧ isOperator next = false) :
    parseLabel env tokens searchContext i labelName
      = .ok (some (Exp.AttributeExists .label labelName searchContext.fuzzyAttributeSearch),
          i, pushHighlighted searchContext labelName) := by
  unfold parseLabel
  rcases h with h | ⟨next, h1, h2⟩
  · simp only [h, if_false, Res.pure_eq, Res.ok_bind]
    rfl
  · by_cases hi : i + 2 < tokens.length
    · simp only [hi, if_true, h1, h2, Res.pure_eq, Res.ok_bind]
      rfl
    · simp only [hi, if_false, Res.pure_eq, Res.ok_bind]
      rfl

/-! ## The constant resolver -/

theorem operandDelta_ok (tokens : List TokenGroup) (i : Nat) :
    ∃ delta, operandDelta tokens i = .ok delta := by
  unfold operandDelta
  split
  · rename_i hi
    obtain ⟨sign, hs⟩ := tokenAt_of_lt tokens (i + 1) (by omega)
    obtain ⟨magnitude, hm⟩ := tokenAt_of_lt tokens (i + 2) hi
    simp only [hs, hm, Res.ok_bind, Res.pure_eq]
    split
    · exact ⟨_, rfl⟩
    · split
      · exact ⟨_, rfl⟩
      · exact ⟨_, rfl⟩
  · exact ⟨_, rfl⟩

/-- The four cases of `resolveConstantOperand` on an operand token. -/
theorem resolveConstantOperand_cases (env : Env) (tokens : List TokenGroup)
    (searchContext : SearchContext) (i : Nat) (operand : Token)
    (h : tokens[i]? = some (.tok operand)) :
    (operand.inQuotes = true →
      resolveConstantOperand env tokens searchContext i
        = .ok (some operand.token, searchContext))
    ∧ (operand.inQuotes = false → operand.token ∉ ["now", "today", "month", "year"] →
        startsWith operand.token "#" = false → startsWith operand.token "~" = false →
        operand.token ≠ "note" →
      resolveConstantOperand env tokens searchContext i
        = .ok (some operand.token, searchContext))
    ∧ ((operand.inQuotes = false ∧ (startsWith operand.token "#" = true
            ∨ startsWith operand.token "~" = true ∨ operand.token = "note")) →
        ∃ c, context searchContext tokens i = .ok c ∧
          resolveConstantOperand env tokens searchContext i
            = .ok (none, { searchContext with
                errors := searchContext.errors ++
                  ["Error near token \"" ++ operand.token ++ "\" in " ++ c
                    ++ ", it's possible to compare with constant only."] }))
    ∧ (¬ (operand.inQuotes = false ∧ (startsWith operand.token "#" = true
            ∨ startsWith operand.token "~" = true ∨ operand.token = "note")) →
        ∃ value, resolveConstantOperand env tokens searchContext i
          = .ok (some value, searchContext)) := by
  refine ⟨?_, ?_, ?_, ?_⟩
  · intro hq
    simp [resolveConstantOperand, h, hq]
  · intro hq hr h1 h2 h3
    simp only [resolveConstantOperand, h]
    rw [if_neg (by simp [h1, h2, h3]), if_pos (Or.inr hr)]
    rfl
  · intro hc
    simp only [resolveConstantOperand, h, context]
    rw [if_pos hc]
    exact ⟨_, rfl, rfl⟩
  · intro hc
    simp only [resolveConstantOperand, h]
    rw [if_neg hc]
    split
    · exact ⟨_, rfl⟩
    · rename_i hres
      obtain ⟨delta, hd⟩ := operandDelta_ok tokens i
      simp only [hd, Res.ok_bind, Res.pure_eq]
      have hmem : operand.token ∈ ["now", "today", "month", "year"] := by
        by_contra hn
        exact hres (Or.inr hn)
      simp only [List.mem_cons, List.mem_singleton, List.not_mem_nil, or_false] at hmem
      rcases hmem with hm | hm | hm | hm <;> rw [hm] <;> exact ⟨_, rfl⟩

/-- C10: `resolveConstantOperand` on an operand token.  A quoted operand, and an
unquoted one that is neither a reserved date word nor an attribute token nor
`note`, comes back as its own text with the context untouched.  An unquoted
operand that starts with `#` or `~`, or is `note`, gives no result and appends
exactly one error, the "compare with constant only" message; every other
operand gives a result and leaves the context, its error list included, as it
was.  So "no result" and "one more error" each hold exactly for the unquoted
`#`/`~`/`note` operands. -/
theorem resolveConstantOperand_constant (env : Env) (tokens : List TokenGroup)
    (searchContext : SearchContext) (i : Nat) (operand : Token)
    (h : tokens[i]? = some (.tok operand)) :
    (operand.inQuotes = true →
      resolveConstantOperand env tokens searchContext i
        = .ok (some operand.token, searchContext))
    ∧ (operand.inQuotes = false → operand.token ∉ ["now", "today", "month", "year"] →
        startsWith operand.token "#" = false → startsWith operand.token "~" = false →
        operand.token ≠ "note" →
      resolveConstantOperand env tokens searchContext i
        = .ok (some operand.token, searchContext))
    ∧ ((operand.inQuotes = false ∧ (startsWith operand.token "#" = true
            ∨ startsWith operand.token "~" = true ∨ operand.token = "note")) →
        ∃ c, context searchContext tokens i = .ok c ∧
          resolveConstantOperand env tokens searchContext i
            = .ok (none, { searchContext with
                errors := searchContext.errors ++
                  ["Error near token \"" ++ operand.token ++ "\" in " ++ c
                    ++ ", it's possible to compare with constant only."] }))
    ∧ (¬ (operand.inQuotes = false ∧ (startsWith operand.token "#" = true
            ∨ startsWith operand.token "~" = true ∨ operand.token = "note")) →
        ∃ value, resolveConstantOperand env tokens searchContext i
          = .ok (some value, searchContext)) :=
  resolveConstantOperand_cases env tokens searchContext i operand h

theorem resolveConstantOperand_constant_witness :
    ∃ c, context (freshContext "#year = #other")
        [word "#year" 0 5, word "=" 6 7, word "#other" 8 14] 2 = .ok c ∧
      resolveConstantOperand specEnv [word "#year" 0 5, word "=" 6 7, word "#other" 8 14]
          (freshContext "#year = #other") 2
        = .ok (none, { freshContext "#year = #other" with
            errors := (freshContext "#year = #other").errors ++
              ["Error near token \"" ++ "#other" ++ "\" in " ++ c
                ++ ", it's possible to compare with constant only."] }) :=
  (resolveConstantOperand_constant specEnv
    [word "#year" 0 5, word "=" 6 7, word "#other" 8 14]
    (freshContext "#year = #other") 2 ⟨"#other", false, 8, 14⟩ rfl).2.2.1
    ⟨rfl, Or.inl (by decide)⟩

/-! ## Labels and comparisons -/

theorem parseAttribute_label (env : Env) (tokens : List TokenGroup)
    (searchContext : SearchContext) (i : Nat) (L : String)
    (hneg : startsWith L "!" = false) :
    parseAttribute env tokens searchContext i ("#" ++ L)
      = parseLabel env tokens searchContext i (some L) := by
  simp only [parseAttribute, startsWith_hash_append, substrFrom_hash_append, hneg, if_true,
    Bool.false_eq_true, if_false]
  cases parseLabel env tokens searchContext i (some L) <;> rfl

theorem parseLabel_comparison (env : Env) (tokens : List TokenGroup)
    (searchContext : SearchContext) (i : Nat) (labelName : JSStr)
    (operator value : String) (comparator : Comparator)
    (hi : i + 2 < tokens.length)
    (hop : stringAt tokens (i + 1) = .ok operator) (hisop : isOperator operator = true)
    (hval : resolveConstantOperand env tokens (pushHighlighted searchContext labelName) (i + 2)
      = .ok (some value, pushHighlighted searchContext labelName))
    (hcmp : env.buildComparator
      (some (if searchContext.fuzzyAttributeSearch = true ∧ operator = "=" then "*=*"
        else operator)) (some value) = some comparator) :
    parseLabel env tokens searchContext i labelName
      = .ok (some (Exp.LabelComparison .label labelName comparator), i + 2,
          pushHighlighted (pushHighlighted searchContext labelName) (some value)) := by
  unfold parseLabel
  simp only [hi, if_true, hop, hisop, Res.ok_bind, Res.pure_eq, hval]
  have : (pushHighlighted (pushHighlighted searchContext labelName) (some value)).fuzzyAttributeSearch
      = searchContext.fuzzyAttributeSearch := rfl
  simp only [this, hcmp]

theorem parseLabel_rejected (env : Env) (tokens : List TokenGroup)
    (searchContext : SearchContext) (i : Nat) (labelName : JSStr)
    (operator : String) (after : SearchContext)
    (hi : i + 2 < tokens.length)
    (hop : stringAt tokens (i + 1) = .ok operator) (hisop : isOperator operator = true)
    (hval : resolveConstantOperand env tokens (pushHighlighted searchContext labelName) (i + 2)
      = .ok (none, after)) :
    parseLabel env tokens searchContext i labelName = .ok (none, i + 2, after) := by
  unfold parseLabel
  simp only [hi, if_true, hop, hisop, Res.ok_bind, Res.pure_eq, hval]

/-- C8: for a label name `L` (not empty, not starting with `!`), an operator
token and an unquoted operand that starts with `#` or `~` or is `note`, the
sequence `[#L, op, v]` gives no result at its level, appends `L` to the
highlighted terms, and records exactly one error, the "it's possible to compare
with constant only" message: no `LabelComparison` is built. -/
theorem nonconstant_comparison_rejected (env : Env) (searchContext : SearchContext)
    (level : Nat) (L : String) (name operator operand : Token)
    (hname : name.token = "#" ++ L) (hL : L ≠ "") (hneg : startsWith L "!" = false)
    (hop : isOperator operator.token = true)
    (hq : operand.inQuotes = false)
    (hv : startsWith operand.token "#" = true ∨ startsWith operand.token "~" = true
      ∨ operand.token = "note") :
    ∃ c, context searchContext [.tok name, .tok operator, .tok operand] 2 = .ok c ∧
      getExpression env (expressionFuel [.tok name, .tok operator, .tok operand])
          [.tok name, .tok operator, .tok operand] searchContext level
        = .ok (none,
            { searchContext with
              highlightedTokens := searchContext.highlightedTokens ++ [some L]
              errors := searchContext.errors ++
                ["Error near token \"" ++ operand.token ++ "\" in " ++ c
                  ++ ", it's possible to compare with constant only."] }) := by
  have h1 : ¬ (name.token = "#" ∨ name.token = "~") := by
    rw [hname]
    exact not_or.mpr ⟨hash_append_ne_hash L hL, hash_append_ne_tilde L⟩
  have h3 : startsWith name.token "#" = true := by rw [hname]; simp
  obtain ⟨c, hc, hr⟩ := (resolveConstantOperand_cases env
    [.tok name, .tok operator, .tok operand] (pushHighlighted searchContext (some L)) 2
    operand rfl).2.2.1 ⟨hq, hv⟩
  refine ⟨c, hc, ?_⟩
  have hpa := parseLabel_rejected env [.tok name, .tok operator, .tok operand] searchContext 0
    (some L) operator.token _ (by simp) rfl hop hr
  rw [← parseAttribute_label env _ _ _ L hneg, ← hname] at hpa
  rw [show expressionFuel [.tok name, .tok operator, .tok operand] = 3 + 1 + 1 from rfl,
    getExpression, if_neg (by simp)]
  rw [getExpressionLoop_attribute env _ _ _ name rfl h1 (Or.inl h3)]
  simp only [hpa, Res.ok_bind, Res.pure_eq]
  rw [getExpressionLoop_done _ _ _ _ rfl]
  rfl

theorem nonconstant_comparison_rejected_witness :
    ∃ c, context (freshContext "#year = #other")
        [word "#year" 0 5, word "=" 6 7, word "#other" 8 14] 2 = .ok c ∧
      getExpression specEnv
          (expressionFuel [word "#year" 0 5, word "=" 6 7, word "#other" 8 14])
          [word "#year" 0 5, word "=" 6 7, word "#other" 8 14]
          (freshContext "#year = #other") 0
        = .ok (none,
            { freshContext "#year = #other" with
              highlightedTokens := (freshContext "#year = #other").highlightedTokens
                ++ [some "year"]
              errors := (freshContext "#year = #other").errors ++
                ["Error near token \"" ++ "#other" ++ "\" in " ++ c
                  ++ ", it's possible to compare with constant only."] }) :=
  nonconstant_comparison_rejected specEnv (freshContext "#year = #other") 0 "year"
    ⟨"#year", false, 0, 5⟩ ⟨"=", false, 6, 7⟩ ⟨"#other", false, 8, 14⟩
    (by decide) (by decide) (by decide) (by decide) rfl (Or.inl (by decide))

/-- C9: for a label name `L` (not empty, not starting with `!`), an operator
token and a constant operand `v`, the sequence `[#L, op, v]` compiles to
`LabelComparison(L, comparator)`.  With `fuzzyAttributeSearch` on and the
operator exactly `=`, the comparator is `buildComparator("*=*", v)`; with the
flag off, or any other operator, it is `buildComparator(op, v)`. -/
theorem fuzzy_rewrite (env : Env) (searchContext : SearchContext)
    (level : Nat) (L : String) (name operator operand : Token) (comparator : Comparator)
    (hname : name.token = "#" ++ L) (hL : L ≠ "") (hneg : startsWith L "!" = false)
    (hop : isOperator operator.token = true)
    (hv : operand.inQuotes = true
      ∨ (operand.token ∉ ["now", "today", "month", "year"]
        ∧ startsWith operand.token "#" = false ∧ startsWith operand.token "~" = false
        ∧ operand.token ≠ "note")) :
    (searchContext.fuzzyAttributeSearch = true → operator.token = "=" →
      env.buildComparator (some "*=*") (some operand.token) = some comparator →
      getExpression env (expressionFuel [.tok name, .tok operator, .tok operand])
          [.tok name, .tok operator, .tok operand] searchContext level
        = .ok (some (Exp.LabelComparison .label (some L) comparator),
            { searchContext with
              highlightedTokens := searchContext.highlightedTokens
                ++ [some L] ++ [some operand.token] }))
    ∧ (searchContext.fuzzyAttributeSearch = false ∨ operator.token ≠ "=" →
      env.buildComparator (some operator.token) (some operand.token) = some comparator →
      getExpression env (expressionFuel [.tok name, .tok operator, .tok operand])
          [.tok name, .tok operator, .tok operand] searchContext level
        = .ok (some (Exp.LabelComparison .label (some L) comparator),
            { searchContext with
              highlightedTokens := searchContext.highlightedTokens
                ++ [some L] ++ [some operand.token] })) := by
  have h1 : ¬ (name.token = "#" ∨ name.token = "~") := by
    rw [hname]
    exact not_or.mpr ⟨hash_append_ne_hash L hL, hash_append_ne_tilde L⟩
  have h3 : startsWith name.token "#" = true := by rw [hname]; simp
  have hr : resolveConstantOperand env [.tok name, .tok operator, .tok operand]
      (pushHighlighted searchContext (some L)) (0 + 2)
      = .ok (some operand.token, pushHighlighted searchContext (some L)) := by
    have hc := resolveConstantOperand_cases env
      [.tok name, .tok operator, .tok operand] (pushHighlighted searchContext (some L)) 2
      operand rfl
    rcases hv with hv | ⟨hv1, hv2, hv3, hv4⟩
    · exact hc.1 hv
    · cases hq : operand.inQuotes
      · exact hc.2.1 hq hv1 hv2 hv3 hv4
      · exact hc.1 hq
  have key : ∀ cmpOp : String,
      (if searchContext.fuzzyAttributeSearch = true ∧ operator.token = "=" then "*=*"
        else operator.token) = cmpOp →
      env.buildComparator (some cmpOp) (some operand.token) = some comparator →
      getExpression env (expressionFuel [.tok name, .tok operator, .tok operand])
          [.tok name, .tok operator, .tok operand] searchContext level
        = .ok (some (Exp.LabelComparison .label (some L) comparator),
            { searchContext with
              highlightedTokens := searchContext.highlightedTokens
                ++ [some L] ++ [some operand.token] }) := by
    intro cmpOp hco hcmp
    have hpa := parseLabel_comparison env [.tok name, .tok operator, .tok operand]
      searchContext 0 (some L) operator.token operand.token comparator
      (by simp) rfl hop hr (by rw [hco]; exact hcmp)
    rw [← parseAttribute_label env _ _ _ L hneg, ← hname] at hpa
    rw [show expressionFuel [.tok name, .tok operator, .tok operand] = 3 + 1 + 1 from rfl,
      getExpression, if_neg (by simp)]
    rw [getExpressionLoop_attribute env _ _ _ name rfl h1 (Or.inl h3)]
    simp only [hpa, Res.ok_bind, Res.pure_eq]
    rw [getExpressionLoop_done _ _ _ _ rfl]
    rfl
  constructor
  · intro hf he hcmp
    exact key "*=*" (by simp [hf, he]) hcmp
  · intro hf hcmp
    refine key operator.token ?_ hcmp
    rcases hf with hf | hf
    · simp [hf]
    · simp [hf]

theorem fuzzy_rewrite_witness :
    getExpression specEnv
        (expressionFuel [word "#genre" 0 6, word "=" 7 8, word "rock" 9 13])
        [word "#genre" 0 6, word "=" 7 8, word "rock" 9 13]
        { freshContext "#genre = rock" with fuzzyAttributeSearch := true } 0
      = .ok (some (Exp.LabelComparison .label (some "genre") ⟨some "*=*", some "rock"⟩),
          { freshContext "#genre = rock" with
            fuzzyAttributeSearch := true
            highlightedTokens := [some "genre", some "rock"] }) :=
  (fuzzy_rewrite specEnv { freshContext "#genre = rock" with fuzzyAttributeSearch := true } 0
    "genre" ⟨"#genre", false, 0, 6⟩ ⟨"=", false, 7, 8⟩ ⟨"rock", false, 9, 13⟩
    ⟨some "*=*", some "rock"⟩ (by decide) (by decide) (by decide) (by decide)
    (Or.inr (by decide))).1 rfl rfl (by decide)

/-! ## Hierarchy traversal -/

theorem texts_cons {tokens : List TokenGroup} {a : String} {rest : List JSStr}
    (h : tokens.map tokenText = some a :: rest) :
    ∃ t ts, tokens = .tok t :: ts ∧ t.token = a ∧ ts.map tokenText = rest := by
  cases tokens with
  | nil => simp at h
  | cons x ts =>
    cases x with
    | group g => simp [tokenText] at h
    | tok t =>
      simp only [List.map_cons, tokenText, List.cons.injEq, Option.some.injEq] at h
      exact ⟨t, ts, rfl, h.1, h.2⟩

theorem texts_nil {tokens : List TokenGroup} (h : tokens.map tokenText = []) : tokens = [] := by
  simpa using h

theorem hash_append_not_mem (tag : String) (names : List JSStr)
    (h : ∀ n ∈ names, ∃ c cs, n = some ⟨c :: cs⟩ ∧ c ≠ '#') :
    some ("#" ++ tag) ∉ names := by
  intro hm
  obtain ⟨c, cs, hn, hc⟩ := h _ hm
  injection hn with hn
  have := congrArg String.data hn
  simp at this
  exact hc this.1.symm

/-- The two path forms after a hierarchy word: an attribute token, and
`labels.<name>`. -/
theorem hierarchy_paths (env : Env) (searchContext : SearchContext) (level : Nat)
    (tokens : List TokenGroup) (tag step : String) (wrap : Option Exp → Exp)
    (hw : (step = "parents" ∧ wrap = Exp.ChildOf) ∨ (step = "children" ∧ wrap = Exp.ParentOf)
      ∨ (step = "ancestors" ∧ wrap = Exp.DescendantOf)) :
    (tokens.map tokenText = [some "note", some ".", some step, some ".", some ("#" ++ tag)] →
      env.isProperty (some ("#" ++ tag)) = false →
      ∃ c, context searchContext tokens 4 = .ok c ∧
        getExpression env (expressionFuel tokens) tokens searchContext level
          = .ok (some (wrap none), addError searchContext
              ("Unrecognized note property \"" ++ ("#" ++ tag) ++ "\" in " ++ c)))
    ∧ (tokens.map tokenText
        = [some "note", some ".", some step, some ".", some "labels", some ".", some tag] →
      getExpression env (expressionFuel tokens) tokens searchContext level
        = .ok (some (wrap (some (Exp.AttributeExists .label (some tag)
            searchContext.fuzzyAttributeSearch))), pushHighlighted searchContext (some tag))) := by
  constructor
  · intro htexts hprop
    obtain ⟨t0, ts, rfl, h0, htexts⟩ := texts_cons htexts
    obtain ⟨t1, ts, rfl, h1, htexts⟩ := texts_cons htexts
    obtain ⟨t2, ts, rfl, h2, htexts⟩ := texts_cons htexts
    obtain ⟨t3, ts, rfl, h3, htexts⟩ := texts_cons htexts
    obtain ⟨t4, ts, rfl, h4, htexts⟩ := texts_cons htexts
    obtain rfl := texts_nil htexts
    have hc : ∃ c, context searchContext [.tok t0, .tok t1, .tok t2, .tok t3, .tok t4] 4 = .ok c :=
      ⟨_, rfl⟩
    obtain ⟨c, hc⟩ := hc
    refine ⟨c, hc, ?_⟩
    have e1 : tokenAt [.tok t0, .tok t1, .tok t2, .tok t3, .tok t4] 1 = .ok (some ".") := by
      rw [← h1]; rfl
    have e2 : tokenAt [.tok t0, .tok t1, .tok t2, .tok t3, .tok t4] (1 + 1) = .ok (some step) := by
      rw [← h2]; rfl
    have e3 : tokenAt [.tok t0, .tok t1, .tok t2, .tok t3, .tok t4] (1 + 1 + 1) = .ok (some ".") := by
      rw [← h3]; rfl
    have e4 : tokenAt [.tok t0, .tok t1, .tok t2, .tok t3, .tok t4] (1 + 1 + 1 + 1)
        = .ok (some ("#" ++ tag)) := by
      rw [← h4]; rfl
    have hinner := parseNoteProperty_unrecognized env
      [.tok t0, .tok t1, .tok t2, .tok t3, .tok t4] 5 searchContext (1 + 1 + 1) _ c e3 e4
      (hash_append_not_mem tag _ (by
        intro n hn
        simp only [List.mem_cons, List.mem_singleton, List.not_mem_nil, or_false] at hn
        rcases hn with rfl | rfl | rfl | rfl | rfl | rfl | rfl <;>
          exact ⟨_, _, rfl, by decide⟩)) hprop hc
    rw [show expressionFuel [.tok t0, .tok t1, .tok t2, .tok t3, .tok t4] = 5 + 1 + 1 from rfl,
      getExpression]
    rw [if_neg (by simp)]
    rw [getExpressionLoop_note env _ _ _ t0 rfl h0]
    rw [show pathFuel [.tok t0, .tok t1, .tok t2, .tok t3, .tok t4] = 5 + 1 + 1 from rfl]
    rcases hw with ⟨rfl, rfl⟩ | ⟨rfl, rfl⟩ | ⟨rfl, rfl⟩
    · rw [parseNoteProperty_parents env _ _ _ _ e1 e2, hinner]
      simp only [Res.ok_bind, Res.pure_eq]
      rw [getExpressionLoop_done _ _ _ _ rfl]
      rfl
    · rw [parseNoteProperty_children env _ _ _ _ e1 e2, hinner]
      simp only [Res.ok_bind, Res.pure_eq]
      rw [getExpressionLoop_done _ _ _ _ rfl]
      rfl
    · rw [parseNoteProperty_ancestors env _ _ _ _ e1 e2, hinner]
      simp only [Res.ok_bind, Res.pure_eq]
      rw [getExpressionLoop_done _ _ _ _ rfl]
      rfl
  · intro htexts
    obtain ⟨t0, ts, rfl, h0, htexts⟩ := texts_cons htexts
    obtain ⟨t1, ts, rfl, h1, htexts⟩ := texts_cons htexts
    obtain ⟨t2, ts, rfl, h2, htexts⟩ := texts_cons htexts
    obtain ⟨t3, ts, rfl, h3, htexts⟩ := texts_cons htexts
    obtain ⟨t4, ts, rfl, h4, htexts⟩ := texts_cons htexts
    obtain ⟨t5, ts, rfl, h5, htexts⟩ := texts_cons htexts
    obtain ⟨t6, ts, rfl, h6, htexts⟩ := texts_cons htexts
    obtain rfl := texts_nil htexts
    have e1 : tokenAt [.tok t0, .tok t1, .tok t2, .tok t3, .tok t4, .tok t5, .tok t6] 1
        = .ok (some ".") := by
      rw [← h1]; rfl
    have e2 : tokenAt [.tok t0, .tok t1, .tok t2, .tok t3, .tok t4, .tok t5, .tok t6] (1 + 1)
        = .ok (some step) := by
      rw [← h2]; rfl
    have e3 : tokenAt [.tok t0, .tok t1, .tok t2, .tok t3, .tok t4, .tok t5, .tok t6]
        (1 + 1 + 1) = .ok (some ".") := by
      rw [← h3]; rfl
    have e4 : tokenAt [.tok t0, .tok t1, .tok t2, .tok t3, .tok t4, .tok t5, .tok t6]
        (1 + 1 + 1 + 1) = .ok (some "labels") := by
      rw [← h4]; rfl
    have e5 : tokenAt [.tok t0, .tok t1, .tok t2, .tok t3, .tok t4, .tok t5, .tok t6]
        (1 + 1 + 1 + 1 + 1) = .ok (some ".") := by
      rw [← h5]; rfl
    have e6 : tokenAt [.tok t0, .tok t1, .tok t2, .tok t3, .tok t4, .tok t5, .tok t6]
        (1 + 1 + 1 + 1 + 2) = .ok (some tag) := by
      rw [← h6]; rfl
    have hinner : parseNoteProperty env
        [.tok t0, .tok t1, .tok t2, .tok t3, .tok t4, .tok t5, .tok t6] (7 + 1) searchContext
        (1 + 1 + 1)
        = .ok (some (Exp.AttributeExists .label (some tag) searchContext.fuzzyAttributeSearch),
            6, pushHighlighted searchContext (some tag)) := by
      rw [parseNoteProperty_labels env _ _ _ _ _ e3 e4 e5 e6]
      exact parseLabel_exists env _ _ _ _ (Or.inl (by simp))
    rw [show expressionFuel [.tok t0, .tok t1, .tok t2, .tok t3, .tok t4, .tok t5, .tok t6]
      = 7 + 1 + 1 from rfl, getExpression]
    rw [if_neg (by simp)]
    rw [getExpressionLoop_note env _ _ _ t0 rfl h0]
    rw [show pathFuel [.tok t0, .tok t1, .tok t2, .tok t3, .tok t4, .tok t5, .tok t6]
      = 7 + 1 + 1 from rfl]
    rcases hw with ⟨rfl, rfl⟩ | ⟨rfl, rfl⟩ | ⟨rfl, rfl⟩
    · rw [parseNoteProperty_parents env _ _ _ _ e1 e2, hinner]
      simp only [Res.ok_bind, Res.pure_eq]
      rw [getExpressionLoop_done _ _ _ _ rfl]
      rfl
    · rw [parseNoteProperty_children env _ _ _ _ e1 e2, hinner]
      simp only [Res.ok_bind, Res.pure_eq]
      rw [getExpressionLoop_done _ _ _ _ rfl]
      rfl
    · rw [parseNoteProperty_ancestors env _ _ _ _ e1 e2, hinner]
      simp only [Res.ok_bind, Res.pure_eq]
      rw [getExpressionLoop_done _ _ _ _ rfl]
      rfl

/-- C4 (amended): with `step` one of `parents`, `children`, `ancestors` and
`wrap` the matching `ChildOf`, `ParentOf`, `DescendantOf`: the sequence
`[note, ., step, ., #tag]` compiles to `wrap` of an absent operand and records
`Unrecognized note property "#tag"` (when `#tag` is not a note property), while
`[note, ., step, ., labels, ., tag]` compiles to
`wrap(AttributeExists(Label, tag, fuzzy))` and highlights `tag`. -/
theorem hierarchy_traversal (env : Env) (searchContext : SearchContext) (level : Nat)
    (tokens : List TokenGroup) (tag step : String) (wrap : Option Exp → Exp)
    (hw : (step = "parents" ∧ wrap = Exp.ChildOf) ∨ (step = "children" ∧ wrap = Exp.ParentOf)
      ∨ (step = "ancestors" ∧ wrap = Exp.DescendantOf)) :
    (tokens.map tokenText = [some "note", some ".", some step, some ".", some ("#" ++ tag)] →
      env.isProperty (some ("#" ++ tag)) = false →
      ∃ c, context searchContext tokens 4 = .ok c ∧
        getExpression env (expressionFuel tokens) tokens searchContext level
          = .ok (some (wrap none), addError searchContext
              ("Unrecognized note property \"" ++ ("#" ++ tag) ++ "\" in " ++ c)))
    ∧ (tokens.map tokenText
        = [some "note", some ".", some step, some ".", some "labels", some ".", some tag] →
      getExpression env (expressionFuel tokens) tokens searchContext level
        = .ok (some (wrap (some (Exp.AttributeExists .label (some tag)
            searchContext.fuzzyAttributeSearch))), pushHighlighted searchContext (some tag))) :=
  hierarchy_paths env searchContext level tokens tag step wrap hw

/-! ## Evaluations on concrete inputs -/

/-- C1: the code at `[[#a, orderby, title, desc, limit, 5]]`.  The first group of
the top level is parsed with level `0` (the call passes `level++`), so its
`orderby` is accepted: the group's result, the one entry accumulated, is an
`OrderByAndLimit` node and no error is recorded. -/
theorem orderby_in_first_group :
    getExpressionLoop specEnv 9
        [.group [word "#a" 1 3, word "orderby" 4 11, word "title" 12 17, word "desc" 18 22,
          word "limit" 23 28, word "5" 29 30]]
        ⟨0, [], none, 0, freshContext "(#a orderby title desc limit 5)"⟩
      = .ok (.completed ⟨1,
          [some (Exp.OrderByAndLimit [⟨[some "title"], "desc"⟩] (some (.int 5))
            (some (Exp.AttributeExists .label (some "a") false)))],
          none, 1,
          { freshContext "(#a orderby title desc limit 5)" with
            highlightedTokens := [some "a"] }⟩) := by
  rfl

/-- C3: the code at `P ++ [orderby, title, desc, limit, 5]` with `P = [[#a]]`.
After the group the level variable is `1`, so the top-level `orderby` and
`limit` are rejected: the result is the existence test alone, no
`OrderByAndLimit` node, and five errors are recorded. -/
theorem orderby_after_group :
    getExpression specEnv
        (expressionFuel [.group [word "#a" 1 3], word "orderby" 5 12, word "title" 13 18,
          word "desc" 19 23, word "limit" 24 29, word "5" 30 31])
        [.group [word "#a" 1 3], word "orderby" 5 12, word "title" 13 18,
          word "desc" 19 23, word "limit" 24 29, word "5" 30 31]
        (freshContext "(#a) orderby title desc limit 5") 0
      = .ok (some (Exp.AttributeExists .label (some "a") false),
          { freshContext "(#a) orderby title desc limit 5" with
            highlightedTokens := [some "a"]
            errors := ["orderBy can appear only on the top expression level",
              "Unrecognized expression \"title\"", "Unrecognized expression \"desc\"",
              "orderBy can appear only on the top expression level",
              "Unrecognized expression \"5\""] }) := by
  rfl

/-- C5: the code on the malformed inputs the claim lists.  A trailing `not`, a
trailing `note`, a trailing `orderby`, a trailing `limit`, `note . content`
with nothing after it, and a label followed by a group and one more token each
end `parse` with a raised `TypeError`, not with a result. -/
theorem parse_raises :
    parse specEnv [] [word "not" 0 3] (freshContext "not") = .raise .typeError
    ∧ parse specEnv [] [word "note" 0 4] (freshContext "note") = .raise .typeError
    ∧ parse specEnv [] [word "orderby" 0 7] (freshContext "orderby") = .raise .typeError
    ∧ parse specEnv [] [word "limit" 0 5] (freshContext "limit") = .raise .typeError
    ∧ parse specEnv [] [word "note" 0 4, word "." 4 5, word "content" 5 12]
        (freshContext "note.content") = .raise .typeError
    ∧ parse specEnv [] [word "#a" 0 2, .group [word "#b" 4 6], word "#c" 8 10]
        (freshContext "#a (#b) #c") = .raise .typeError := by
  refine ⟨?_, ?_, ?_, ?_, ?_, ?_⟩ <;> rfl

/-- C4, counterexample: `[note, ., parents, ., #tag]` compiles to `ChildOf` of
an absent operand, with an error, not to `ChildOf(AttributeExists(...))`. -/
theorem hierarchy_attribute_token_counterexample :
    getExpression specEnv
        (expressionFuel [word "note" 0 4, word "." 4 5, word "parents" 5 12, word "." 12 13,
          word "#tag" 13 17])
        [word "note" 0 4, word "." 4 5, word "parents" 5 12, word "." 12 13,
          word "#tag" 13 17]
        (freshContext "note.parents.#tag") 0
      = .ok (some (Exp.ChildOf none),
          { freshContext "note.parents.#tag" with
            errors := ["Unrecognized note property \"#tag\" in \"note.parents.#tag\""] })
    ∧ Exp.ChildOf none
      ≠ Exp.ChildOf (some (Exp.AttributeExists .label (some "tag") false)) := by
  refine ⟨rfl, ?_⟩
  intro h
  injection h with h
  exact Option.noConfusion h

theorem hierarchy_traversal_witness :
    getExpression specEnv
        (expressionFuel [word "note" 0 4, word "." 4 5, word "parents" 5 12, word "." 12 13,
          word "labels" 13 19, word "." 19 20, word "tag" 20 23])
        [word "note" 0 4, word "." 4 5, word "parents" 5 12, word "." 12 13,
          word "labels" 13 19, word "." 19 20, word "tag" 20 23]
        (freshContext "note.parents.labels.tag") 0
      = .ok (some (Exp.ChildOf (some (Exp.AttributeExists .label (some "tag")
            (freshContext "note.parents.labels.tag").fuzzyAttributeSearch))),
          pushHighlighted (freshContext "note.parents.labels.tag") (some "tag")) :=
  (hierarchy_traversal specEnv (freshContext "note.parents.labels.tag") 0
    [word "note" 0 4, word "." 4 5, word "parents" 5 12, word "." 12 13,
      word "labels" 13 19, word "." 19 20, word "tag" 20 23] "tag" "parents" Exp.ChildOf
    (Or.inl ⟨rfl, rfl⟩)).2 rfl

theorem getFulltext_eq (tokens : List TokenGroup) (searchContext : SearchContext) :
    getFulltext tokens searchContext
      = (if tokens.length = 0 then none
          else if searchContext.includeNoteContent = true then
            some (Exp.Or [Exp.NoteCacheFulltext (tokens.map tokenText),
              Exp.NoteContentProtectedFulltext "*=*" (tokens.map tokenText),
              Exp.NoteContentUnprotectedFulltext "*=*" (tokens.map tokenText)])
          else some (Exp.NoteCacheFulltext (tokens.map tokenText)),
        { searchContext with
          highlightedTokens := searchContext.highlightedTokens ++ tokens.map tokenText }) := by
  unfold getFulltext
  cases tokens with
  | nil => rfl
  | cons t ts =>
    simp only [List.map_cons, List.length_cons, Nat.succ_ne_zero, if_false]
    split <;> rfl

theorem AndExp.of_single (e : Option Exp) : AndExp.of [none, none, e] = e := by
  cases e <;> rfl

/-- The shape of `parse`: the normalizing `And` of the archived filter, the
full-text result and whatever `getExpression` gives, the three full-text cases,
and `parse` with neither filter nor full text. -/
theorem parse_composition (env : Env) (fulltextTokens : List Token)
    (expressionTokens : List TokenGroup) (searchContext : SearchContext) :
    parse env fulltextTokens expressionTokens searchContext
      = (getExpression env (expressionFuel expressionTokens) expressionTokens
            (getFulltext (fulltextTokens.map TokenGroup.tok) searchContext).2 0 >>= fun r =>
          .ok (AndExp.of
            [if searchContext.excludeArchived = true then
                some (Exp.PropertyComparison (some "isarchived")
                  (env.buildComparator (some "=") (some "false")))
              else none,
              (getFulltext (fulltextTokens.map TokenGroup.tok) searchContext).1,
              r.1], r.2))
    ∧ getFulltext (fulltextTokens.map TokenGroup.tok) searchContext
      = (if fulltextTokens.length = 0 then none
          else if searchContext.includeNoteContent = true then
            some (Exp.Or [Exp.NoteCacheFulltext (fulltextTokens.map (fun t => some t.token)),
              Exp.NoteContentProtectedFulltext "*=*"
                (fulltextTokens.map (fun t => some t.token)),
              Exp.NoteContentUnprotectedFulltext "*=*"
                (fulltextTokens.map (fun t => some t.token))])
          else some (Exp.NoteCacheFulltext (fulltextTokens.map (fun t => some t.token))),
        { searchContext with
          highlightedTokens := searchContext.highlightedTokens
            ++ fulltextTokens.map (fun t => some t.token) })
    ∧ (searchContext.excludeArchived = false → fulltextTokens = [] →
        parse env fulltextTokens expressionTokens searchContext
          = getExpression env (expressionFuel expressionTokens) expressionTokens
              searchContext 0) := by
  have hmap : (fulltextTokens.map TokenGroup.tok).map tokenText
      = fulltextTokens.map (fun t => some t.token) := by
    rw [List.map_map]
    rfl
  refine ⟨rfl, ?_, ?_⟩
  · rw [getFulltext_eq, hmap]
    cases fulltextTokens <;> rfl
  · intro ha hf
    subst hf
    unfold parse
    have hctx : (getFulltext (List.map TokenGroup.tok ([] : List Token)) searchContext).2
        = searchContext := by
      cases searchContext
      simp [getFulltext]
    have hft : (getFulltext (List.map TokenGroup.tok ([] : List Token)) searchContext).1
        = none := rfl
    simp only [ha, hctx, hft, Bool.false_eq_true, if_false]
    cases getExpression env (expressionFuel expressionTokens) expressionTokens
      searchContext 0 with
    | ok r =>
      obtain ⟨e, sc⟩ := r
      show Res.ok (AndExp.of [none, none, e], sc) = Res.ok (e, sc)
      rw [AndExp.of_single]
    | raise e => rfl
    | outOfFuel => rfl

theorem slice_split {α : Type} (l : List α) (a s e b : Nat)
    (h1 : a ≤ s) (h2 : s ≤ e) (h3 : e ≤ b) :
    (l.drop a).take (b - a)
      = (l.drop a).take (s - a) ++ ((l.drop s).take (e - s) ++ (l.drop e).take (b - e)) := by
  have hb : b - a = (s - a) + ((e - s) + (b - e)) := by omega
  rw [hb, List.take_add, List.take_add, List.drop_drop, List.drop_drop]
  have e1 : a + (s - a) = s := by omega
  have e2 : s + (e - s) = e := by omega
  simp only [e1, e2, Nat.add_comm (s - a) a, Nat.add_comm (e - s) s]

/-- C18: with lengths and offsets counted in UTF-16 code units as the source
counts them, the error-context snippet of a token with offsets
`s ≤ e ≤ length q` is the double-quoted text made of `...` iff `s > 20`, then
the substring of `q` from `max(0, s - 20)` up to `min(length q, e + 20)`, then
`...` iff `e + 20 < length q`.  The code units of that substring are the
token's range with at most 20 units before it and at most 20 after it. -/
theorem context_snippet (searchContext : SearchContext) (tokens : List TokenGroup)
    (i : Nat) (t : Token) (h : tokens[i]? = some (.tok t))
    (hs : t.startIndex ≤ t.endIndex)
    (he : t.endIndex ≤ jsLength searchContext.originalQuery) :
    context searchContext tokens i
      = .ok ("\"" ++ (if t.startIndex > 20 then "..." else "")
          ++ substr searchContext.originalQuery (t.startIndex - 20)
              (min (jsLength searchContext.originalQuery) (t.endIndex + 20)
                - (t.startIndex - 20))
          ++ (if t.endIndex + 20 < jsLength searchContext.originalQuery then "..." else "")
          ++ "\"")
    ∧ ∃ before after : List Nat,
        substrUnits searchContext.originalQuery (t.startIndex - 20)
            (min (jsLength searchContext.originalQuery) (t.endIndex + 20)
              - (t.startIndex - 20))
          = before
              ++ (((unitsOf searchContext.originalQuery.data).drop t.startIndex).take
                  (t.endIndex - t.startIndex)
                ++ after)
        ∧ before.length ≤ 20 ∧ after.length ≤ 20
        ∧ (before.length = 20 ↔ 20 ≤ t.startIndex)
        ∧ (after.length = 20 ↔ t.endIndex + 20 ≤ jsLength searchContext.originalQuery) := by
  constructor
  · simp only [context, h, Nat.zero_max]
    have e1 : (t.startIndex - 20 ≠ 0) ↔ t.startIndex > 20 := by omega
    have e2 : (min (jsLength searchContext.originalQuery) (t.endIndex + 20)
        ≠ jsLength searchContext.originalQuery)
        ↔ t.endIndex + 20 < jsLength searchContext.originalQuery := by omega
    simp only [e1, e2]
  · have hlen : jsLength searchContext.originalQuery
        = (unitsOf searchContext.originalQuery.data).length := rfl
    refine ⟨((unitsOf searchContext.originalQuery.data).drop (t.startIndex - 20)).take
        (t.startIndex - (t.startIndex - 20)),
      ((unitsOf searchContext.originalQuery.data).drop t.endIndex).take
        (min (jsLength searchContext.originalQuery) (t.endIndex + 20) - t.endIndex),
      ?_, ?_, ?_, ?_, ?_⟩
    · unfold substrUnits
      rw [slice_split _ (t.startIndex - 20) t.startIndex t.endIndex
        (min (jsLength searchContext.originalQuery) (t.endIndex + 20)) (by omega) hs
        (by omega)]
    · rw [List.length_take]
      omega
    · rw [List.length_take]
      omega
    · rw [List.length_take, List.length_drop]
      omega
    · rw [List.length_take, List.length_drop]
      omega

theorem context_snippet_witness :
    context
        (freshContext "#alpha #beta #gamma #year = #other  😀😀😀😀😀😀😀😀😀😀 #omega")
        [word "#year" 20 25, word "=" 26 27, word "#other" 28 34] 2
      = .ok "\"...beta #gamma #year = #other  😀😀😀😀😀😀😀😀😀...\"" :=
  (context_snippet
    (freshContext "#alpha #beta #gamma #year = #other  😀😀😀😀😀😀😀😀😀😀 #omega")
    [word "#year" 20 25, word "=" 26 27, word "#other" 28 34] 2 ⟨"#other", false, 28, 34⟩ rfl
    (by decide) (by decide)).1.trans (by rfl)

theorem tilde_append_ne_tilde (R : String) (h : R ≠ "") : "~" ++ R ≠ "~" := by
  intro hc
  apply h
  have := congrArg String.data hc
  simp at this
  exact String.ext this

theorem tilde_append_ne_hash (R : String) : "~" ++ R ≠ "#" := by
  intro hc
  have := congrArg String.data hc
  simp at this

theorem startsWith_hash_tilde_append (R : String) : startsWith ("~" ++ R) "#" = false := by
  simp [startsWith, List.isPrefixOf]

theorem parseAttribute_relation (env : Env) (tokens : List TokenGroup)
    (searchContext : SearchContext) (i : Nat) (R : String)
    (hneg : startsWith R "!" = false) :
    parseAttribute env tokens searchContext i ("~" ++ R)
      = parseRelation env tokens (pathFuel tokens) searchContext i (some R) := by
  simp only [parseAttribute, startsWith_hash_tilde_append, substrFrom_tilde_append, hneg,
    if_true, Bool.false_eq_true, if_false]
  cases parseRelation env tokens (pathFuel tokens) searchContext i (some R) <;> rfl

theorem parseRelation_where (env : Env) (tokens : List TokenGroup) (fuel : Nat)
    (searchContext : SearchContext) (i : Nat) (relationName : JSStr)
    (hi : i + 2 < tokens.length) (hdot : tokenIs tokens (i + 1) "." = true) :
    parseRelation env tokens (fuel + 1) searchContext i relationName
      = (parseNoteProperty env tokens fuel (pushHighlighted searchContext relationName)
            (i + 1) >>= fun r =>
          .ok (some (Exp.RelationWhere relationName r.1), r.2.1, r.2.2)) := by
  rw [parseRelation]
  simp only [hi, hdot, and_self, if_true]
  rfl

theorem parseNoteProperty_property (env : Env) (tokens : List TokenGroup) (fuel : Nat)
    (searchContext : SearchContext) (i : Nat) (name operator comparedValue : JSStr)
    (comparator : Comparator)
    (h0 : tokenAt tokens i = .ok (some "."))
    (h1 : tokenAt tokens (i + 1) = .ok name)
    (hn : name ∉ [some "content", some "parents", some "children", some "ancestors",
      some "labels", some "relations", some "text"])
    (hp : env.isProperty name = true)
    (h2 : tokenAt tokens (i + 1 + 1) = .ok operator)
    (h3 : tokenAt tokens (i + 1 + 2) = .ok comparedValue)
    (hc : env.buildComparator operator comparedValue = some comparator) :
    parseNoteProperty env tokens (fuel + 1) searchContext i
      = .ok (some (Exp.PropertyComparison name (some comparator)), i + 1 + 2,
          searchContext) := by
  simp only [List.mem_cons, List.mem_singleton, List.not_mem_nil, or_false, not_or] at hn
  obtain ⟨n1, n2, n3, n4, n5, n6, n7⟩ := hn
  rw [parseNoteProperty]
  simp only [h0, h1, h2, h3, Res.ok_bind, n1, n2, n3, n4, n5, n6, n7, hp, hc]
  simp


theorem relation_where_step (env : Env) (tokens : List TokenGroup) (fuel : Nat)
    (s : LoopState) (R P op v : String) (rest : List JSStr) (comparator : Comparator)
    (htexts : tokens.map tokenText
      = some ("~" ++ R) :: some "." :: some P :: some op :: some v :: rest)
    (hR : R ≠ "") (hneg : startsWith R "!" = false)
    (hP : some P ∉ [some "content", some "parents", some "children", some "ancestors",
      some "labels", some "relations", some "text"])
    (hprop : env.isProperty (some P) = true)
    (hcmp : env.buildComparator (some op) (some v) = some comparator)
    (hi : s.i = 0) :
    getExpressionLoop env (fuel + 1) tokens s
      = getExpressionLoop env fuel tokens
          (endOfIteration { s with
            i := 4
            expressions := s.expressions ++
              [some (Exp.RelationWhere (some R)
                (some (Exp.PropertyComparison (some P) (some comparator))))]
            searchContext := pushHighlighted s.searchContext (some R) }) := by
  obtain ⟨t0, ts, rfl, h0, htexts⟩ := texts_cons htexts
  obtain ⟨t1, ts, rfl, h1, htexts⟩ := texts_cons htexts
  obtain ⟨t2, ts, rfl, h2, htexts⟩ := texts_cons htexts
  obtain ⟨t3, ts, rfl, h3, htexts⟩ := texts_cons htexts
  obtain ⟨t4, ts, rfl, h4, htexts⟩ := texts_cons htexts
  have g0 : (TokenGroup.tok t0 :: .tok t1 :: .tok t2 :: .tok t3 :: .tok t4 :: ts)[s.i]?
      = some (.tok t0) := by rw [hi]; rfl
  have a1 : ¬ (t0.token = "#" ∨ t0.token = "~") := by
    rw [h0]
    exact not_or.mpr ⟨tilde_append_ne_hash R, tilde_append_ne_tilde R hR⟩
  have a2 : startsWith t0.token "~" = true := by rw [h0]; simp
  have e1 : tokenAt (.tok t0 :: .tok t1 :: .tok t2 :: .tok t3 :: .tok t4 :: ts) (0 + 1)
      = .ok (some ".") := by rw [← h1]; rfl
  have e2 : tokenAt (.tok t0 :: .tok t1 :: .tok t2 :: .tok t3 :: .tok t4 :: ts) (0 + 1 + 1)
      = .ok (some P) := by rw [← h2]; rfl
  have e3 : tokenAt (.tok t0 :: .tok t1 :: .tok t2 :: .tok t3 :: .tok t4 :: ts)
      (0 + 1 + 1 + 1) = .ok (some op) := by rw [← h3]; rfl
  have e4 : tokenAt (.tok t0 :: .tok t1 :: .tok t2 :: .tok t3 :: .tok t4 :: ts)
      (0 + 1 + 1 + 2) = .ok (some v) := by simp [tokenAt, h4]
  have hdot : tokenIs (.tok t0 :: .tok t1 :: .tok t2 :: .tok t3 :: .tok t4 :: ts) (0 + 1) "."
      = true := by
    simp [tokenIs, h1]
  have hlen : 0 + 2 < (TokenGroup.tok t0 :: .tok t1 :: .tok t2 :: .tok t3 :: .tok t4 :: ts).length := by
    simp
  rw [getExpressionLoop_attribute env _ _ _ t0 g0 a1 (Or.inr a2), hi, h0,
    parseAttribute_relation env _ _ _ R hneg,
    show pathFuel (.tok t0 :: .tok t1 :: .tok t2 :: .tok t3 :: .tok t4 :: ts)
      = (ts.length + 5) + 1 + 1 from rfl,
    parseRelation_where env _ _ _ 0 _ hlen hdot,
    parseNoteProperty_property env _ _ _ (0 + 1) (some P) (some op) (some v) comparator
      e1 e2 hP hprop e3 e4 hcmp]
  rfl


/-- C16: with `step` one of `parents`, `children`, `ancestors` and `wrap` the
matching `ChildOf`, `ParentOf`, `DescendantOf`, the sequence
`[note, ., step, ., labels, ., N]` compiles to
`wrap(AttributeExists(Label, N, fuzzy))`, records no error and appends `N` to
the highlighted terms.  A sequence that starts `~R . P op v`, with `P` a
recognized note property (not one of the seven path words that are tested
first) and `op` an operator the comparator builder accepts, adds
`RelationWhere(R, PropertyComparison(P, buildComparator(op, v)))` to the
accumulator and leaves the position on `v`, so that the loop goes on with the
token after `v`; alone, the sequence compiles to that node. -/
theorem note_path_and_relation_where (env : Env) (tokens : List TokenGroup) :
    (∀ (searchContext : SearchContext) (level : Nat) (N step : String)
        (wrap : Option Exp → Exp),
      ((step = "parents" ∧ wrap = Exp.ChildOf) ∨ (step = "children" ∧ wrap = Exp.ParentOf)
        ∨ (step = "ancestors" ∧ wrap = Exp.DescendantOf)) →
      tokens.map tokenText
        = [some "note", some ".", some step, some ".", some "labels", some ".", some N] →
      getExpression env (expressionFuel tokens) tokens searchContext level
        = .ok (some (wrap (some (Exp.AttributeExists .label (some N)
            searchContext.fuzzyAttributeSearch))),
            { searchContext with
              highlightedTokens := searchContext.highlightedTokens ++ [some N] }))
    ∧ (∀ (fuel : Nat) (s : LoopState) (R P op v : String) (rest : List JSStr)
        (comparator : Comparator),
      tokens.map tokenText
        = some ("~" ++ R) :: some "." :: some P :: some op :: some v :: rest →
      R ≠ "" → startsWith R "!" = false →
      some P ∉ [some "content", some "parents", some "children", some "ancestors",
        some "labels", some "relations", some "text"] →
      env.isProperty (some P) = true →
      env.buildComparator (some op) (some v) = some comparator →
      s.i = 0 →
      getExpressionLoop env (fuel + 1) tokens s
          = getExpressionLoop env fuel tokens
              (endOfIteration { s with
                i := 4
                expressions := s.expressions ++
                  [some (Exp.RelationWhere (some R)
                    (some (Exp.PropertyComparison (some P) (some comparator))))]
                searchContext := pushHighlighted s.searchContext (some R) })
        ∧ (rest = [] → ∀ (searchContext : SearchContext) (level : Nat),
            getExpression env (expressionFuel tokens) tokens searchContext level
              = .ok (some (Exp.RelationWhere (some R)
                    (some (Exp.PropertyComparison (some P) (some comparator)))),
                  pushHighlighted searchContext (some R)))) := by
  constructor
  · intro searchContext level N step wrap hw htexts
    exact (hierarchy_paths env searchContext level tokens N step wrap hw).2 htexts
  · intro fuel s R P op v rest comparator htexts hR hneg hP hprop hcmp hi
    refine ⟨relation_where_step env tokens fuel s R P op v rest comparator htexts hR hneg hP
      hprop hcmp hi, ?_⟩
    intro hrest searchContext level
    subst hrest
    have hstep := relation_where_step env tokens 5 ⟨0, [], none, level, searchContext⟩
      R P op v [] comparator htexts hR hneg hP hprop hcmp rfl
    obtain ⟨t0, ts, rfl, h0, htexts⟩ := texts_cons htexts
    obtain ⟨t1, ts, rfl, h1, htexts⟩ := texts_cons htexts
    obtain ⟨t2, ts, rfl, h2, htexts⟩ := texts_cons htexts
    obtain ⟨t3, ts, rfl, h3, htexts⟩ := texts_cons htexts
    obtain ⟨t4, ts, rfl, h4, htexts⟩ := texts_cons htexts
    obtain rfl := texts_nil htexts
    rw [show expressionFuel [.tok t0, .tok t1, .tok t2, .tok t3, .tok t4] = 5 + 1 + 1 from rfl,
      getExpression, if_neg (by simp), hstep, getExpressionLoop_done _ _ _ _ rfl]
    rfl

theorem note_path_and_relation_where_witness :
    getExpression specEnv
        (expressionFuel [word "~author" 0 7, word "." 7 8, word "title" 8 13, word "=" 14 15,
          word "Tolkien" 16 23])
        [word "~author" 0 7, word "." 7 8, word "title" 8 13, word "=" 14 15,
          word "Tolkien" 16 23]
        (freshContext "~author.title = Tolkien") 0
      = .ok (some (Exp.RelationWhere (some "author")
            (some (Exp.PropertyComparison (some "title")
              (some ⟨some "=", some "Tolkien"⟩)))),
          pushHighlighted (freshContext "~author.title = Tolkien") (some "author")) :=
  ((note_path_and_relation_where specEnv
      [word "~author" 0 7, word "." 7 8, word "title" 8 13, word "=" 14 15,
        word "Tolkien" 16 23]).2 0
    ⟨0, [], none, 0, freshContext "~author.title = Tolkien"⟩ "author" "title" "=" "Tolkien" []
    ⟨some "=", some "Tolkien"⟩ rfl (by decide) (by decide) (by decide) (by decide)
    (by decide) rfl).2 rfl (freshContext "~author.title = Tolkien") 0

/-! ## The main loop as a step relation -/

theorem validOp_endOfIteration (s : LoopState) (h : validOp s.op) :
    validOp (endOfIteration s).op := by
  unfold endOfIteration
  by_cases hc : s.op = none ∧ s.expressions.length > 1
  · simp only [hc, and_self, if_true]
    exact Or.inr (Or.inl rfl)
  · simp only [hc, if_false]
    exact h

theorem Iteration.validOp {env : Env} {fuel : Nat} {tokens : List TokenGroup}
    {s next : LoopState} (h : Iteration env fuel tokens s next)
    (ho : validOp s.op) : validOp next.op := by
  cases h with
  | connective t h ht =>
    apply validOp_endOfIteration
    by_cases hn : s.op = none
    · simp only [hn, if_true]
      rcases ht with ht | ht
      · exact Or.inr (Or.inl (by rw [ht]))
      · exact Or.inr (Or.inr (by rw [ht]))
    · simp only [hn, if_false]
      exact ho
  | group g r h hr => exact ho
  | bare t h ht => exact ho
  | attr t r h h1 h2 hr => exact validOp_endOfIteration _ ho
  | orderNested t h ht hl => exact ho
  | notToken t next h ht hn => exact ho
  | notGroup t g r h ht hn hr => exact validOp_endOfIteration _ ho
  | note t r h ht hr => exact ho
  | operator t h ht => exact validOp_endOfIteration _ ho
  | other t h h1 h2 h3 h4 h5 h6 h7 => exact validOp_endOfIteration _ ho

/-- The value of `parseLabel`: the position stays or moves two tokens on, and
the expression is absent or a leaf. -/
theorem parseLabel_result (env : Env) (tokens : List TokenGroup)
    (searchContext : SearchContext) (i : Nat) (labelName : JSStr)
    (r : Option Exp × Nat × SearchContext)
    (h : parseLabel env tokens searchContext i labelName = .ok r) :
    (r.2.1 = i ∨ r.2.1 = i + 2) ∧ hasOrderByOption r.1 = false := by
  unfold parseLabel at h
  obtain ⟨followed, -, h⟩ := Res.bind_eq_ok.mp h
  cases followed with
  | false =>
    simp only [Bool.false_eq_true, if_false, Res.pure_eq] at h
    cases Res.ok.inj h
    exact ⟨Or.inl rfl, rfl⟩
  | true =>
    simp only [if_true] at h
    obtain ⟨operator, -, h⟩ := Res.bind_eq_ok.mp h
    obtain ⟨⟨value, after⟩, -, h⟩ := Res.bind_eq_ok.mp h
    cases value with
    | none =>
      cases Res.ok.inj h
      exact ⟨Or.inr rfl, rfl⟩
    | some value =>
      dsimp only at h
      split at h
      · obtain ⟨c, -, h⟩ := Res.bind_eq_ok.mp h
        cases Res.ok.inj h
        exact ⟨Or.inr rfl, rfl⟩
      · cases Res.ok.inj h
        exact ⟨Or.inr rfl, rfl⟩

/-- The ways `parseNoteProperty` returns a value. -/
theorem parseNoteProperty_inv (env : Env) (tokens : List TokenGroup) (fuel : Nat)
    (searchContext : SearchContext) (i : Nat) (r : Option Exp × Nat × SearchContext)
    (h : parseNoteProperty env tokens (fuel + 1) searchContext i = .ok r) :
    (r.1 = none ∧ i ≤ r.2.1)
    ∨ (∃ operator value, r.1 = some (Exp.Or
          [Exp.NoteContentUnprotectedFulltext operator [value],
            Exp.NoteContentProtectedFulltext operator [value]]) ∧ r.2.1 = i + 3)
    ∨ (∃ (wrap : Option Exp → Exp) (sub : Option Exp × Nat × SearchContext),
        (wrap = Exp.ChildOf ∨ wrap = Exp.ParentOf ∨ wrap = Exp.DescendantOf)
        ∧ parseNoteProperty env tokens fuel searchContext (i + 2) = .ok sub
        ∧ r = (some (wrap sub.1), sub.2.1, sub.2.2))
    ∨ (∃ name, parseLabel env tokens searchContext (i + 3) name = .ok r)
    ∨ (∃ name, parseRelation env tokens fuel searchContext (i + 3) name = .ok r)
    ∨ (∃ t, r.1 = (getFulltext [t] searchContext).1 ∧ r.2.1 = i + 3)
    ∨ (∃ name comparator, r.1 = some (Exp.PropertyComparison name (some comparator))
        ∧ r.2.1 = i + 3) := by
  rw [parseNoteProperty] at h
  obtain ⟨dot, -, h⟩ := Res.bind_eq_ok.mp h
  by_cases hdot : dot ≠ some "."
  · rw [if_pos hdot] at h
    cases Res.ok.inj h
    exact Or.inl ⟨rfl, Nat.le_refl _⟩
  rw [if_neg hdot] at h
  obtain ⟨name, -, h⟩ := Res.bind_eq_ok.mp h
  by_cases h1 : name = some "content"
  · rw [if_pos h1] at h
    obtain ⟨operator, -, h⟩ := Res.bind_eq_ok.mp h
    by_cases ho : isOperator operator = false
    · rw [if_pos ho] at h
      obtain ⟨c, -, h⟩ := Res.bind_eq_ok.mp h
      cases Res.ok.inj h
      exact Or.inl ⟨rfl, by show i ≤ i + 1 + 1; omega⟩
    · rw [if_neg ho] at h
      obtain ⟨value, -, h⟩ := Res.bind_eq_ok.mp h
      cases Res.ok.inj h
      exact Or.inr (Or.inl ⟨operator, value, rfl, rfl⟩)
  rw [if_neg h1] at h
  by_cases h2 : name = some "parents"
  · rw [if_pos h2] at h
    obtain ⟨sub, hrec, h⟩ := Res.bind_eq_ok.mp h
    cases Res.ok.inj h
    exact Or.inr (Or.inr (Or.inl ⟨Exp.ChildOf, sub, Or.inl rfl, hrec, rfl⟩))
  rw [if_neg h2] at h
  by_cases h3 : name = some "children"
  · rw [if_pos h3] at h
    obtain ⟨sub, hrec, h⟩ := Res.bind_eq_ok.mp h
    cases Res.ok.inj h
    exact Or.inr (Or.inr (Or.inl ⟨Exp.ParentOf, sub, Or.inr (Or.inl rfl), hrec, rfl⟩))
  rw [if_neg h3] at h
  by_cases h4 : name = some "ancestors"
  · rw [if_pos h4] at h
    obtain ⟨sub, hrec, h⟩ := Res.bind_eq_ok.mp h
    cases Res.ok.inj h
    exact Or.inr (Or.inr (Or.inl ⟨Exp.DescendantOf, sub, Or.inr (Or.inr rfl), hrec, rfl⟩))
  rw [if_neg h4] at h
  by_cases h5 : name = some "labels"
  · rw [if_pos h5] at h
    obtain ⟨next, -, h⟩ := Res.bind_eq_ok.mp h
    by_cases hn : next ≠ some "."
    · rw [if_pos hn] at h
      obtain ⟨c, -, h⟩ := Res.bind_eq_ok.mp h
      cases Res.ok.inj h
      exact Or.inl ⟨rfl, by show i ≤ i + 1; omega⟩
    · rw [if_neg hn] at h
      obtain ⟨labelName, -, h⟩ := Res.bind_eq_ok.mp h
      exact Or.inr (Or.inr (Or.inr (Or.inl ⟨labelName, h⟩)))
  rw [if_neg h5] at h
  by_cases h6 : name = some "relations"
  · rw [if_pos h6] at h
    obtain ⟨next, -, h⟩ := Res.bind_eq_ok.mp h
    by_cases hn : next ≠ some "."
    · rw [if_pos hn] at h
      obtain ⟨c, -, h⟩ := Res.bind_eq_ok.mp h
      cases Res.ok.inj h
      exact Or.inl ⟨rfl, by show i ≤ i + 1; omega⟩
    · rw [if_neg hn] at h
      obtain ⟨relationName, -, h⟩ := Res.bind_eq_ok.mp h
      exact Or.inr (Or.inr (Or.inr (Or.inr (Or.inl ⟨relationName, h⟩))))
  rw [if_neg h6] at h
  by_cases h7 : name = some "text"
  · rw [if_pos h7] at h
    obtain ⟨next, -, h⟩ := Res.bind_eq_ok.mp h
    by_cases hn : next ≠ some "*=*"
    · rw [if_pos hn] at h
      obtain ⟨c, -, h⟩ := Res.bind_eq_ok.mp h
      cases Res.ok.inj h
      exact Or.inl ⟨rfl, by show i ≤ i + 1; omega⟩
    · rw [if_neg hn] at h
      dsimp only at h
      cases ht : tokens[i + 1 + 2]? with
      | none =>
        rw [ht] at h
        cases h
      | some t =>
        rw [ht] at h
        cases Res.ok.inj h
        exact Or.inr (Or.inr (Or.inr (Or.inr (Or.inr (Or.inl ⟨t, rfl, rfl⟩)))))
  rw [if_neg h7] at h
  by_cases h8 : env.isProperty name = true
  · rw [if_pos h8] at h
    obtain ⟨operator, -, h⟩ := Res.bind_eq_ok.mp h
    obtain ⟨comparedValue, -, h⟩ := Res.bind_eq_ok.mp h
    cases hc : env.buildComparator operator comparedValue with
    | none =>
      rw [hc] at h
      obtain ⟨c, -, h⟩ := Res.bind_eq_ok.mp h
      cases Res.ok.inj h
      exact Or.inl ⟨rfl, by show i ≤ i + 1; omega⟩
    | some comparator =>
      rw [hc] at h
      cases Res.ok.inj h
      exact Or.inr (Or.inr (Or.inr (Or.inr (Or.inr (Or.inr ⟨name, comparator, rfl, rfl⟩)))))
  · rw [if_neg h8] at h
    obtain ⟨c, -, h⟩ := Res.bind_eq_ok.mp h
    cases Res.ok.inj h
    exact Or.inl ⟨rfl, by show i ≤ i + 1; omega⟩

theorem getFulltext_orderFree (tokens : List TokenGroup) (searchContext : SearchContext) :
    hasOrderByOption (getFulltext tokens searchContext).1 = false := by
  unfold getFulltext
  dsimp only
  split
  · rfl
  · split
    · simp [hasOrderByOption, Exp.hasOrderBy, hasOrderByList]
    · simp [hasOrderByOption, Exp.hasOrderBy]

/-- The values of `parseNoteProperty` and `parseRelation`: the position does not
move back, and no order clause is in the expression. -/
theorem path_result (env : Env) (tokens : List TokenGroup) (fuel : Nat) :
    (∀ (searchContext : SearchContext) (i : Nat) (r : Option Exp × Nat × SearchContext),
      parseNoteProperty env tokens fuel searchContext i = .ok r →
        i ≤ r.2.1 ∧ hasOrderByOption r.1 = false)
    ∧ (∀ (searchContext : SearchContext) (i : Nat) (relationName : JSStr)
        (r : Option Exp × Nat × SearchContext),
      parseRelation env tokens fuel searchContext i relationName = .ok r →
        i ≤ r.2.1 ∧ hasOrderByOption r.1 = false) := by
  induction fuel with
  | zero =>
    constructor
    · intro searchContext i r h
      rw [parseNoteProperty] at h
      cases h
    · intro searchContext i relationName r h
      rw [parseRelation] at h
      cases h
  | succ fuel ih =>
    constructor
    · intro searchContext i r h
      rcases parseNoteProperty_inv env tokens fuel searchContext i r h with
        ⟨h1, h2⟩ | ⟨operator, value, h1, h2⟩ | ⟨wrap, sub, hw, hrec, hr⟩ | ⟨name, hl⟩
        | ⟨name, hrel⟩ | ⟨t, h1, h2⟩ | ⟨name, comparator, h1, h2⟩
      · rw [h1]
        exact ⟨h2, rfl⟩
      · rw [h1, h2]
        exact ⟨by omega, by simp [hasOrderByOption, Exp.hasOrderBy, hasOrderByList]⟩
      · obtain ⟨hp, ho⟩ := ih.1 _ _ _ hrec
        rw [hr]
        refine ⟨by show i ≤ sub.2.1; omega, ?_⟩
        rcases hw with hw | hw | hw <;> rw [hw] <;>
          simpa [hasOrderByOption, Exp.hasOrderBy] using ho
      · obtain ⟨hp, ho⟩ := parseLabel_result env tokens _ _ _ _ hl
        exact ⟨by omega, ho⟩
      · obtain ⟨hp, ho⟩ := ih.2 _ _ _ _ hrel
        exact ⟨by omega, ho⟩
      · rw [h1, h2]
        exact ⟨by omega, getFulltext_orderFree _ _⟩
      · rw [h1, h2]
        exact ⟨by omega, by simp [hasOrderByOption, Exp.hasOrderBy]⟩
    · intro searchContext i relationName r h
      rw [parseRelation] at h
      dsimp only at h
      by_cases hc : i + 2 < tokens.length ∧ tokenIs tokens (i + 1) "." = true
      · rw [if_pos hc] at h
        obtain ⟨sub, hrec, h⟩ := Res.bind_eq_ok.mp h
        cases Res.ok.inj h
        obtain ⟨hp, ho⟩ := ih.1 _ _ _ hrec
        refine ⟨by show i ≤ sub.2.1; omega, ?_⟩
        simpa [hasOrderByOption, Exp.hasOrderBy] using ho
      · rw [if_neg hc] at h
        cases Res.ok.inj h
        exact ⟨Nat.le_refl _, by simp [hasOrderByOption, Exp.hasOrderBy]⟩

/-- The value of `parseAttribute`: the position does not move back, and no
order clause is in the expression. -/
theorem parseAttribute_result (env : Env) (tokens : List TokenGroup)
    (searchContext : SearchContext) (i : Nat) (name : String)
    (r : Option Exp × Nat × SearchContext)
    (h : parseAttribute env tokens searchContext i name = .ok r) :
    i ≤ r.2.1 ∧ hasOrderByOption r.1 = false := by
  unfold parseAttribute at h
  dsimp only at h
  obtain ⟨sub, hsub, h⟩ := Res.bind_eq_ok.mp h
  have hs : i ≤ sub.2.1 ∧ hasOrderByOption sub.1 = false := by
    by_cases hl : startsWith name "#" = true
    · rw [if_pos hl] at hsub
      obtain ⟨hp, ho⟩ := parseLabel_result env tokens _ _ _ _ hsub
      exact ⟨by omega, ho⟩
    · rw [if_neg hl] at hsub
      exact (path_result env tokens _).2 _ _ _ _ hsub
  cases Res.ok.inj h
  refine ⟨hs.1, ?_⟩
  by_cases hn : startsWith (substrFrom name 1) "!" = true
  · simp only [hn, if_true]
    simpa [hasOrderByOption, Exp.hasOrderBy] using hs.2
  · simp only [hn, if_false]
    exact hs.2

/-! ## Positions of the order clause -/

theorem tokenIs_lt (tokens : List TokenGroup) (i : Nat) (s : String)
    (h : tokenIs tokens i s = true) : i < tokens.length := by
  unfold tokenIs at h
  cases ht : tokens[i]? with
  | none => rw [ht] at h; cases h
  | some t =>
    by_contra hlt
    rw [List.getElem?_eq_none (by omega)] at ht
    cases ht

theorem orderByPath_position (tokens : List TokenGroup) (fuel : Nat) :
    ∀ (i : Nat) (acc : List JSStr) (r : List JSStr × Nat),
      orderByPath tokens fuel i acc = .ok r → i + 2 ≤ r.2 := by
  induction fuel with
  | zero =>
    intro i acc r h
    rw [orderByPath] at h
    cases h
  | succ fuel ih =>
    intro i acc r h
    rw [orderByPath] at h
    obtain ⟨segment, -, h⟩ := Res.bind_eq_ok.mp h
    dsimp only at h
    by_cases hc : tokenIs tokens (i + 1 + 1) "." = true
    · rw [if_pos hc] at h
      have := ih _ _ _ h
      omega
    · rw [if_neg hc] at h
      cases Res.ok.inj h
      exact Nat.le_refl _

/-- Every pass of the main loop ends at a later position. -/
theorem Iteration.advance {env : Env} {fuel : Nat} {tokens : List TokenGroup}
    {s next : LoopState} (h : Iteration env fuel tokens s next) : s.i < next.i := by
  cases h with
  | group g r h hr => exact Nat.lt_succ_self _
  | bare t h ht => exact Nat.lt_succ_self _
  | attr t r h h1 h2 hr =>
    have := (parseAttribute_result env tokens _ _ _ _ hr).1
    show s.i < r.2.1 + 1
    omega
  | orderNested t h ht hl => exact Nat.lt_succ_self _
  | notToken t next h ht hn => show s.i < s.i + 1 + 1; omega
  | notGroup t g r h ht hn hr => show s.i < s.i + 1 + 1; omega
  | note t r h ht hr =>
    have := ((path_result env tokens _).1 _ _ _ hr).1
    show s.i < r.2.1 + 1
    omega
  | connective t h ht => exact Nat.lt_succ_self _
  | operator t h ht => exact Nat.lt_succ_self _
  | other t h h1 h2 h3 h4 h5 h6 h7 => exact Nat.lt_succ_self _

/-! ## Termination -/

theorem Res.bind_eq_outOfFuel {α β : Type} {x : Res α} {f : α → Res β} :
    (x >>= f) = Res.outOfFuel ↔ x = Res.outOfFuel ∨ ∃ a, x = Res.ok a ∧ f a = Res.outOfFuel := by
  cases x <;> simp

theorem tokenAt_terminates (tokens : List TokenGroup) (i : Nat) :
    tokenAt tokens i ≠ .outOfFuel := by
  unfold tokenAt
  cases tokens[i]? with
  | none => intro h; cases h
  | some t => cases t <;> (intro h; cases h)

theorem stringAt_terminates (tokens : List TokenGroup) (i : Nat) :
    stringAt tokens i ≠ .outOfFuel := by
  unfold stringAt
  cases tokens[i]? with
  | none => intro h; cases h
  | some t => cases t <;> (intro h; cases h)

theorem context_terminates (searchContext : SearchContext) (tokens : List TokenGroup)
    (i : Nat) : context searchContext tokens i ≠ .outOfFuel := by
  unfold context
  cases tokens[i]? with
  | none => intro h; cases h
  | some t => cases t <;> (intro h; cases h)

theorem resolveConstantOperand_terminates (env : Env) (tokens : List TokenGroup)
    (searchContext : SearchContext) (i : Nat) :
    resolveConstantOperand env tokens searchContext i ≠ .outOfFuel := by
  intro h
  unfold resolveConstantOperand at h
  cases ht : tokens[i]? with
  | none => rw [ht] at h; cases h
  | some t =>
    cases t with
    | group g => rw [ht] at h; cases h
    | tok operand =>
      rw [ht] at h
      dsimp only at h
      split at h
      · rcases Res.bind_eq_outOfFuel.mp h with h | ⟨c, -, h⟩
        · exact context_terminates _ _ _ h
        · cases h
      · split at h
        · cases h
        · obtain ⟨delta, hd⟩ := operandDelta_ok tokens i
          rw [hd] at h
          simp only [Res.ok_bind] at h
          split at h
          · cases h
          · split at h
            · cases h
            · split at h
              · cases h
              · split at h <;> cases h

theorem parseLabel_terminates (env : Env) (tokens : List TokenGroup)
    (searchContext : SearchContext) (i : Nat) (labelName : JSStr) :
    parseLabel env tokens searchContext i labelName ≠ .outOfFuel := by
  intro h
  unfold parseLabel at h
  rcases Res.bind_eq_outOfFuel.mp h with h | ⟨followed, -, h⟩
  · by_cases hi : i + 2 < tokens.length
    · rw [if_pos hi] at h
      rcases Res.bind_eq_outOfFuel.mp h with h | ⟨next, -, h⟩
      · exact stringAt_terminates _ _ h
      · cases h
    · rw [if_neg hi] at h
      cases h
  · cases followed with
    | false =>
      simp only [Bool.false_eq_true, if_false, Res.pure_eq] at h
      cases h
    | true =>
      simp only [if_true] at h
      rcases Res.bind_eq_outOfFuel.mp h with h | ⟨operator, -, h⟩
      · exact stringAt_terminates _ _ h
      rcases Res.bind_eq_outOfFuel.mp h with h | ⟨⟨value, after⟩, -, h⟩
      · exact resolveConstantOperand_terminates _ _ _ _ h
      cases value with
      | none => cases h
      | some value =>
        dsimp only at h
        split at h
        · rcases Res.bind_eq_outOfFuel.mp h with h | ⟨c, -, h⟩
          · exact context_terminates _ _ _ h
          · cases h
        · cases h

theorem tokenAt_ok_lt (tokens : List TokenGroup) (i : Nat) (v : JSStr)
    (h : tokenAt tokens i = .ok v) : i < tokens.length := by
  unfold tokenAt at h
  by_contra hlt
  rw [List.getElem?_eq_none (by omega)] at h
  cases h

/-- With fuel for the tokens that are left, `parseNoteProperty` and
`parseRelation` run to their end. -/
theorem path_terminates (env : Env) (tokens : List TokenGroup) (fuel : Nat) :
    (∀ (searchContext : SearchContext) (i : Nat),
      tokens.length + 1 ≤ fuel + i → 1 ≤ fuel →
        parseNoteProperty env tokens fuel searchContext i ≠ .outOfFuel)
    ∧ (∀ (searchContext : SearchContext) (i : Nat) (relationName : JSStr),
      tokens.length + 1 ≤ fuel + i → 1 ≤ fuel →
        parseRelation env tokens fuel searchContext i relationName ≠ .outOfFuel) := by
  induction fuel with
  | zero =>
    constructor
    · intro _ _ _ h; exact absurd h (by decide)
    · intro _ _ _ _ h; exact absurd h (by decide)
  | succ fuel ih =>
    constructor
    · intro searchContext i hf _ h
      rw [parseNoteProperty] at h
      rcases Res.bind_eq_outOfFuel.mp h with h | ⟨dot, -, h⟩
      · exact tokenAt_terminates _ _ h
      by_cases hdot : dot ≠ some "."
      · rw [if_pos hdot] at h
        cases h
      rw [if_neg hdot] at h
      rcases Res.bind_eq_outOfFuel.mp h with h | ⟨name, hname, h⟩
      · exact tokenAt_terminates _ _ h
      have hlt := tokenAt_ok_lt _ _ _ hname
      by_cases h1 : name = some "content"
      · rw [if_pos h1] at h
        rcases Res.bind_eq_outOfFuel.mp h with h | ⟨operator, -, h⟩
        · exact stringAt_terminates _ _ h
        by_cases ho : isOperator operator = false
        · rw [if_pos ho] at h
          rcases Res.bind_eq_outOfFuel.mp h with h | ⟨c, -, h⟩
          · exact context_terminates _ _ _ h
          · cases h
        · rw [if_neg ho] at h
          rcases Res.bind_eq_outOfFuel.mp h with h | ⟨value, -, h⟩
          · exact tokenAt_terminates _ _ h
          · cases h
      rw [if_neg h1] at h
      by_cases h2 : name = some "parents"
      · rw [if_pos h2] at h
        rcases Res.bind_eq_outOfFuel.mp h with h | ⟨sub, -, h⟩
        · exact ih.1 _ _ (by omega) (by omega) h
        · cases h
      rw [if_neg h2] at h
      by_cases h3 : name = some "children"
      · rw [if_pos h3] at h
        rcases Res.bind_eq_outOfFuel.mp h with h | ⟨sub, -, h⟩
        · exact ih.1 _ _ (by omega) (by omega) h
        · cases h
      rw [if_neg h3] at h
      by_cases h4 : name = some "ancestors"
      · rw [if_pos h4] at h
        rcases Res.bind_eq_outOfFuel.mp h with h | ⟨sub, -, h⟩
        · exact ih.1 _ _ (by omega) (by omega) h
        · cases h
      rw [if_neg h4] at h
      by_cases h5 : name = some "labels"
      · rw [if_pos h5] at h
        rcases Res.bind_eq_outOfFuel.mp h with h | ⟨next, -, h⟩
        · exact tokenAt_terminates _ _ h
        by_cases hn : next ≠ some "."
        · rw [if_pos hn] at h
          rcases Res.bind_eq_outOfFuel.mp h with h | ⟨c, -, h⟩
          · exact context_terminates _ _ _ h
          · cases h
        · rw [if_neg hn] at h
          rcases Res.bind_eq_outOfFuel.mp h with h | ⟨labelName, -, h⟩
          · exact tokenAt_terminates _ _ h
          · exact parseLabel_terminates _ _ _ _ _ h
      rw [if_neg h5] at h
      by_cases h6 : name = some "relations"
      · rw [if_pos h6] at h
        rcases Res.bind_eq_outOfFuel.mp h with h | ⟨next, -, h⟩
        · exact tokenAt_terminates _ _ h
        by_cases hn : next ≠ some "."
        · rw [if_pos hn] at h
          rcases Res.bind_eq_outOfFuel.mp h with h | ⟨c, -, h⟩
          · exact context_terminates _ _ _ h
          · cases h
        · rw [if_neg hn] at h
          rcases Res.bind_eq_outOfFuel.mp h with h | ⟨relationName, -, h⟩
          · exact tokenAt_terminates _ _ h
          · exact ih.2 _ _ _ (by omega) (by omega) h
      rw [if_neg h6] at h
      by_cases h7 : name = some "text"
      · rw [if_pos h7] at h
        rcases Res.bind_eq_outOfFuel.mp h with h | ⟨next, -, h⟩
        · exact tokenAt_terminates _ _ h
        by_cases hn : next ≠ some "*=*"
        · rw [if_pos hn] at h
          rcases Res.bind_eq_outOfFuel.mp h with h | ⟨c, -, h⟩
          · exact context_terminates _ _ _ h
          · cases h
        · rw [if_neg hn] at h
          dsimp only at h
          cases ht : tokens[i + 1 + 2]? with
          | none => rw [ht] at h; cases h
          | some t => rw [ht] at h; cases h
      rw [if_neg h7] at h
      by_cases h8 : env.isProperty name = true
      · rw [if_pos h8] at h
        rcases Res.bind_eq_outOfFuel.mp h with h | ⟨operator, -, h⟩
        · exact tokenAt_terminates _ _ h
        rcases Res.bind_eq_outOfFuel.mp h with h | ⟨comparedValue, -, h⟩
        · exact tokenAt_terminates _ _ h
        cases hc : env.buildComparator operator comparedValue with
        | none =>
          rw [hc] at h
          rcases Res.bind_eq_outOfFuel.mp h with h | ⟨c, -, h⟩
          · exact context_terminates _ _ _ h
          · cases h
        | some comparator =>
          rw [hc] at h
          cases h
      · rw [if_neg h8] at h
        rcases Res.bind_eq_outOfFuel.mp h with h | ⟨c, -, h⟩
        · exact context_terminates _ _ _ h
        · cases h
    · intro searchContext i relationName hf _ h
      rw [parseRelation] at h
      dsimp only at h
      by_cases hc : i + 2 < tokens.length ∧ tokenIs tokens (i + 1) "." = true
      · rw [if_pos hc] at h
        rcases Res.bind_eq_outOfFuel.mp h with h | ⟨sub, -, h⟩
        · exact ih.1 _ _ (by omega) (by omega) h
        · cases h
      · rw [if_neg hc] at h
        cases h

theorem parseAttribute_terminates (env : Env) (tokens : List TokenGroup)
    (searchContext : SearchContext) (i : Nat) (name : String) :
    parseAttribute env tokens searchContext i name ≠ .outOfFuel := by
  intro h
  unfold parseAttribute at h
  dsimp only at h
  rcases Res.bind_eq_outOfFuel.mp h with h | ⟨sub, -, h⟩
  · by_cases hl : startsWith name "#" = true
    · rw [if_pos hl] at h
      exact parseLabel_terminates _ _ _ _ _ h
    · rw [if_neg hl] at h
      exact (path_terminates env tokens _).2 _ _ _ (by unfold pathFuel; omega)
        (by unfold pathFuel; omega) h
  · cases h

theorem orderByPath_terminates (tokens : List TokenGroup) (fuel : Nat) :
    ∀ (i : Nat) (acc : List JSStr), tokens.length + 1 ≤ fuel + i → 1 ≤ fuel →
      orderByPath tokens fuel i acc ≠ .outOfFuel := by
  induction fuel with
  | zero => intro _ _ _ h; exact absurd h (by decide)
  | succ fuel ih =>
    intro i acc hf _ h
    rw [orderByPath] at h
    rcases Res.bind_eq_outOfFuel.mp h with h | ⟨segment, -, h⟩
    · exact tokenAt_terminates _ _ h
    dsimp only at h
    by_cases hc : tokenIs tokens (i + 1 + 1) "." = true
    · rw [if_pos hc] at h
      have := tokenIs_lt _ _ _ hc
      exact ih _ _ (by omega) (by omega) h
    · rw [if_neg hc] at h
      cases h

theorem orderByDefinitions_terminates (env : Env) (tokens : List TokenGroup) (fuel : Nat) :
    ∀ (searchContext : SearchContext) (i : Nat) (acc : List OrderDefinition),
      tokens.length + 1 ≤ fuel + i → 1 ≤ fuel →
      orderByDefinitions env tokens fuel searchContext i acc ≠ .outOfFuel := by
  induction fuel with
  | zero => intro _ _ _ _ h; exact absurd h (by decide)
  | succ fuel ih =>
    intro searchContext i acc hf _ h
    rw [orderByDefinitions] at h
    rcases Res.bind_eq_outOfFuel.mp h with h | ⟨⟨path, j⟩, hpath, h⟩
    · exact orderByPath_terminates tokens _ _ _ (by omega) (by omega) h
    have hj := orderByPath_position tokens _ _ _ _ hpath
    dsimp only at hj h
    by_cases ha : tokenIs tokens j "asc" = true
    · rw [if_pos ha] at h
      dsimp only at h
      by_cases hc : tokenIs tokens (j + 1) "," = true
      · rw [if_pos hc] at h
        have := tokenIs_lt _ _ _ hc
        exact ih _ _ _ (by omega) (by omega) h
      · rw [if_neg hc] at h
        cases h
    · rw [if_neg ha] at h
      by_cases hb : tokenIs tokens j "desc" = true
      · rw [if_pos hb] at h
        dsimp only at h
        by_cases hc : tokenIs tokens (j + 1) "," = true
        · rw [if_pos hc] at h
          have := tokenIs_lt _ _ _ hc
          exact ih _ _ _ (by omega) (by omega) h
        · rw [if_neg hc] at h
          cases h
      · rw [if_neg hb] at h
        dsimp only at h
        by_cases hc : tokenIs tokens j "," = true
        · rw [if_pos hc] at h
          have := tokenIs_lt _ _ _ hc
          exact ih _ _ _ (by omega) (by omega) h
        · rw [if_neg hc] at h
          cases h

theorem parseOrderByAndLimit_terminates (env : Env) (tokens : List TokenGroup)
    (searchContext : SearchContext) (i : Nat) :
    parseOrderByAndLimit env tokens searchContext i ≠ .outOfFuel := by
  intro h
  unfold parseOrderByAndLimit at h
  rcases Res.bind_eq_outOfFuel.mp h with h | ⟨first, -, h⟩
  · exact tokenAt_terminates _ _ h
  rcases Res.bind_eq_outOfFuel.mp h with h | ⟨⟨defs, j, after⟩, -, h⟩
  · by_cases hf : first = some "orderby"
    · rw [if_pos hf] at h
      exact orderByDefinitions_terminates env tokens _ _ _ _ (by omega) (by omega) h
    · rw [if_neg hf] at h
      cases h
  dsimp only at h
  by_cases hl : tokenIs tokens j "limit" = true
  · rw [if_pos hl] at h
    rcases Res.bind_eq_outOfFuel.mp h with h | ⟨n, -, h⟩
    · exact tokenAt_terminates _ _ h
    · cases h
  · rw [if_neg hl] at h
    cases h

theorem costList_drop_step (tokens : List TokenGroup) (i : Nat) (x : TokenGroup)
    (h : tokens[i]? = some x) :
    TokenGroup.costList (tokens.drop i)
      = x.cost + 1 + TokenGroup.costList (tokens.drop (i + 1)) := by
  have hlt : i < tokens.length := by
    by_contra hlt
    rw [List.getElem?_eq_none (by omega)] at h
    cases h
  rw [List.getElem?_eq_getElem hlt] at h
  cases h
  rw [List.drop_eq_getElem_cons hlt, TokenGroup.costList]

theorem costList_drop_succ (tokens : List TokenGroup) (i : Nat) :
    TokenGroup.costList (tokens.drop (i + 1)) ≤ TokenGroup.costList (tokens.drop i) := by
  cases h : tokens[i]? with
  | none =>
    have : tokens.length ≤ i := by
      by_contra hlt
      rw [List.getElem?_eq_getElem (by omega)] at h
      cases h
    rw [List.drop_eq_nil_of_le (by omega), List.drop_eq_nil_of_le this]
  | some x =>
    rw [costList_drop_step tokens i x h]
    omega

theorem costList_drop_mono (tokens : List TokenGroup) (i j : Nat) (h : i ≤ j) :
    TokenGroup.costList (tokens.drop j) ≤ TokenGroup.costList (tokens.drop i) := by
  induction j with
  | zero =>
    have : i = 0 := by omega
    rw [this]
  | succ j ih =>
    by_cases hij : i = j + 1
    · rw [hij]
    · exact Nat.le_trans (costList_drop_succ tokens j) (ih (by omega))

/-- A run of the loop that is out of fuel ran out in a nested call or in the
rest of the run after a pass. -/
theorem getExpressionLoop_fuel_inv (env : Env) (fuel : Nat) (tokens : List TokenGroup)
    (s : LoopState) (h : getExpressionLoop env (fuel + 1) tokens s = .outOfFuel) :
    (∃ g, (tokens[s.i]? = some (.group g)
          ∨ ∃ t, tokens[s.i]? = some (.tok t) ∧ tokens[s.i + 1]? = some (.group g))
        ∧ getExpression env fuel g s.searchContext s.level = .outOfFuel)
    ∨ (∃ next, Iteration env fuel tokens s next
        ∧ getExpressionLoop env fuel tokens next = .outOfFuel) := by
  cases ht : tokens[s.i]? with
  | none =>
    rw [getExpressionLoop_done env fuel tokens s ht] at h
    cases h
  | some x =>
    cases x with
    | group g =>
      rw [getExpressionLoop_group env fuel tokens s g ht] at h
      rcases Res.bind_eq_outOfFuel.mp h with h | ⟨r, hr, hn⟩
      · exact Or.inl ⟨g, Or.inl rfl, h⟩
      · exact Or.inr ⟨_, Iteration.group g r ht hr, hn⟩
    | tok t =>
      by_cases h1 : t.token = "#" ∨ t.token = "~"
      · rw [getExpressionLoop_bare env fuel tokens s t ht h1] at h
        exact Or.inr ⟨_, Iteration.bare t ht h1, h⟩
      by_cases h2 : startsWith t.token "#" = true ∨ startsWith t.token "~" = true
      · rw [getExpressionLoop_attribute env fuel tokens s t ht h1 h2] at h
        rcases Res.bind_eq_outOfFuel.mp h with h | ⟨r, hr, hn⟩
        · exact absurd h (parseAttribute_terminates _ _ _ _ _)
        · exact Or.inr ⟨_, Iteration.attr t r ht h1 h2 hr, hn⟩
      by_cases h3 : t.token = "orderby" ∨ t.token = "limit"
      · by_cases hl : s.level = 0
        · rw [getExpressionLoop_order_top env fuel tokens s t ht h3 hl] at h
          rcases Res.bind_eq_outOfFuel.mp h with h | ⟨r, hr, hn⟩
          · exact absurd h (parseOrderByAndLimit_terminates _ _ _ _)
          · cases hn
        · rw [getExpressionLoop_order_nested env fuel tokens s t ht h3 hl] at h
          exact Or.inr ⟨_, Iteration.orderNested t ht h3 hl, h⟩
      by_cases h4 : t.token = "not"
      · cases hn : tokens[s.i + 1]? with
        | none =>
          rw [getExpressionLoop_not_end env fuel tokens s t ht h4 hn] at h
          cases h
        | some y =>
          cases y with
          | tok next =>
            rw [getExpressionLoop_not_token env fuel tokens s t ht h4 next hn] at h
            exact Or.inr ⟨_, Iteration.notToken t next ht h4 hn, h⟩
          | group g =>
            rw [getExpressionLoop_not_group env fuel tokens s t ht h4 g hn] at h
            rcases Res.bind_eq_outOfFuel.mp h with h | ⟨r, hr, hnext⟩
            · exact Or.inl ⟨g, Or.inr ⟨t, rfl, rfl⟩, h⟩
            · exact Or.inr ⟨_, Iteration.notGroup t g r ht h4 hn hr, hnext⟩
      by_cases h5 : t.token = "note"
      · rw [getExpressionLoop_note env fuel tokens s t ht h5] at h
        rcases Res.bind_eq_outOfFuel.mp h with h | ⟨r, hr, hn⟩
        · exact absurd h ((path_terminates env tokens _).1 _ _ (by unfold pathFuel; omega)
            (by unfold pathFuel; omega))
        · exact Or.inr ⟨_, Iteration.note t r ht h5 hr, hn⟩
      by_cases h6 : t.token = "and" ∨ t.token = "or"
      · rw [getExpressionLoop_connective env fuel tokens s t ht h6] at h
        exact Or.inr ⟨_, Iteration.connective t ht h6, h⟩
      by_cases h7 : isOperator t.token = true
      · rw [getExpressionLoop_operator env fuel tokens s t ht h7] at h
        exact Or.inr ⟨_, Iteration.operator t ht h7, h⟩
      · rw [getExpressionLoop_other env fuel tokens s t ht h1 h2 h3 h4 h5 h6
          (by simpa using h7)] at h
        exact Or.inr ⟨_, Iteration.other t ht h1 h2 h3 h4 h5 h6 (by simpa using h7), h⟩

theorem costList_drop_next (tokens : List TokenGroup) (i j fuel : Nat) (hij : i < j)
    (hlt : i < tokens.length)
    (hf : TokenGroup.costList (tokens.drop i) + 1 ≤ fuel + 1) :
    TokenGroup.costList (tokens.drop j) + 1 ≤ fuel := by
  have h1 := costList_drop_mono tokens (i + 1) j hij
  have h2 := costList_drop_step tokens i tokens[i] (List.getElem?_eq_getElem hlt)
  omega

theorem Iteration.in_bounds {env : Env} {fuel : Nat} {tokens : List TokenGroup}
    {s next : LoopState} (h : Iteration env fuel tokens s next) : s.i < tokens.length := by
  have key : ∀ x, tokens[s.i]? = some x → s.i < tokens.length := by
    intro x hx
    by_contra hlt
    rw [List.getElem?_eq_none (by omega)] at hx
    cases hx
  cases h with
  | group g r h hr => exact key _ h
  | bare t h ht => exact key _ h
  | attr t r h h1 h2 hr => exact key _ h
  | orderNested t h ht hl => exact key _ h
  | notToken t next h ht hn => exact key _ h
  | notGroup t g r h ht hn hr => exact key _ h
  | note t r h ht hr => exact key _ h
  | connective t h ht => exact key _ h
  | operator t h ht => exact key _ h
  | other t h h1 h2 h3 h4 h5 h6 h7 => exact key _ h

/-- With the fuel of `expressionFuel`, or more, neither `getExpression` nor its
loop runs out of fuel. -/
theorem expression_terminates (env : Env) (fuel : Nat) :
    (∀ (tokens : List TokenGroup) (searchContext : SearchContext) (level : Nat),
      TokenGroup.costList tokens + 2 ≤ fuel →
        getExpression env fuel tokens searchContext level ≠ .outOfFuel)
    ∧ (∀ (tokens : List TokenGroup) (s : LoopState),
      TokenGroup.costList (tokens.drop s.i) + 1 ≤ fuel →
        getExpressionLoop env fuel tokens s ≠ .outOfFuel) := by
  induction fuel with
  | zero =>
    constructor
    · intro _ _ _ h; exact absurd h (by omega)
    · intro _ _ h; exact absurd h (by omega)
  | succ fuel ih =>
    constructor
    · intro tokens searchContext level hf h
      rw [getExpression] at h
      by_cases hlen : tokens.length = 0
      · rw [if_pos hlen] at h
        cases h
      · rw [if_neg hlen] at h
        rcases Res.bind_eq_outOfFuel.mp h with h | ⟨r, -, h⟩
        · exact ih.2 tokens _ (by show TokenGroup.costList (tokens.drop 0) + 1 ≤ fuel
                                  rw [List.drop_zero]; omega) h
        · cases r <;> cases h
    · intro tokens s hf h
      rcases getExpressionLoop_fuel_inv env fuel tokens s h with
        ⟨g, hg, hout⟩ | ⟨next, hit, hout⟩
      · refine ih.1 g _ _ ?_ hout
        rcases hg with hg | ⟨t, ht, hg⟩
        · have := costList_drop_step tokens s.i _ hg
          rw [TokenGroup.cost] at this
          omega
        · have h1 := costList_drop_step tokens s.i _ ht
          have h2 := costList_drop_step tokens (s.i + 1) _ hg
          rw [TokenGroup.cost] at h2
          omega
      · exact ih.2 tokens next
          (costList_drop_next tokens s.i next.i fuel hit.advance hit.in_bounds hf) hout

theorem Res.ok_or_raise {α : Type} {x : Res α} (h : x ≠ .outOfFuel) :
    (∃ a, x = .ok a) ∨ (∃ e, x = .raise e) := by
  cases x with
  | ok a => exact Or.inl ⟨a, rfl⟩
  | raise e => exact Or.inr ⟨e, rfl⟩
  | outOfFuel => exact absurd rfl h

/-- C14: on every input `parse` either raises the error that `getExpression`
raises, or returns the normalized `And` of, in this order, the archived filter
(present iff `excludeArchived` is set), the full-text result and the value `r`
that `getExpression` returns on the expression tokens at level `0`.  The
full-text result for the terms `T` is absent when `T` is empty, the `Or` of the
index search and the two content searches with `*=*` when `includeNoteContent`
is set, and the index search otherwise; every term is appended to
`highlightedTokens`.  With the filter off and no full-text token the value is
that of `getExpression`.  On `tolkien #book` with the filter on the value is
the `And` of three; on `tolkien not`, a well-formed input, `getExpression`
raises a `TypeError` and `parse` returns nothing at all. -/
theorem parse_and_of_three :
    (∀ (env : Env) (fulltextTokens : List Token) (expressionTokens : List TokenGroup)
        (searchContext : SearchContext),
      (∃ r after,
        getExpression env (expressionFuel expressionTokens) expressionTokens
            (getFulltext (fulltextTokens.map TokenGroup.tok) searchContext).2 0
          = .ok (r, after)
        ∧ parse env fulltextTokens expressionTokens searchContext
          = .ok (AndExp.of
              [if searchContext.excludeArchived = true then
                  some (Exp.PropertyComparison (some "isarchived")
                    (env.buildComparator (some "=") (some "false")))
                else none,
                (getFulltext (fulltextTokens.map TokenGroup.tok) searchContext).1,
                r], after))
      ∨ (∃ e,
        getExpression env (expressionFuel expressionTokens) expressionTokens
            (getFulltext (fulltextTokens.map TokenGroup.tok) searchContext).2 0
          = .raise e
        ∧ parse env fulltextTokens expressionTokens searchContext = .raise e))
    ∧ (∀ (fulltextTokens : List Token) (searchContext : SearchContext),
      getFulltext (fulltextTokens.map TokenGroup.tok) searchContext
        = (if fulltextTokens.length = 0 then none
            else if searchContext.includeNoteContent = true then
              some (Exp.Or [Exp.NoteCacheFulltext (fulltextTokens.map (fun t => some t.token)),
                Exp.NoteContentProtectedFulltext "*=*"
                  (fulltextTokens.map (fun t => some t.token)),
                Exp.NoteContentUnprotectedFulltext "*=*"
                  (fulltextTokens.map (fun t => some t.token))])
            else some (Exp.NoteCacheFulltext (fulltextTokens.map (fun t => some t.token))),
          { searchContext with
            highlightedTokens := searchContext.highlightedTokens
              ++ fulltextTokens.map (fun t => some t.token) }))
    ∧ (∀ (env : Env) (expressionTokens : List TokenGroup) (searchContext : SearchContext),
      searchContext.excludeArchived = false →
      parse env [] expressionTokens searchContext
        = getExpression env (expressionFuel expressionTokens) expressionTokens searchContext 0)
    ∧ parse specEnv [⟨"tolkien", false, 0, 7⟩] [word "#book" 8 13]
        { freshContext "tolkien #book" with excludeArchived := true }
      = .ok (some (Exp.And
          [Exp.PropertyComparison (some "isarchived") (some ⟨some "=", some "false"⟩),
            Exp.NoteCacheFulltext [some "tolkien"],
            Exp.AttributeExists .label (some "book") false]),
          { freshContext "tolkien #book" with
            excludeArchived := true
            highlightedTokens := [some "tolkien", some "book"] })
    ∧ parse specEnv [⟨"tolkien", false, 0, 7⟩] [word "not" 8 11]
        { freshContext "tolkien not" with excludeArchived := true }
      = .raise .typeError := by
  refine ⟨?_, ?_, ?_, rfl, rfl⟩
  · intro env fulltextTokens expressionTokens searchContext
    have hp := (parse_composition env fulltextTokens expressionTokens searchContext).1
    have ht : getExpression env (expressionFuel expressionTokens) expressionTokens
        (getFulltext (fulltextTokens.map TokenGroup.tok) searchContext).2 0 ≠ .outOfFuel :=
      (expression_terminates env _).1 expressionTokens _ 0 (Nat.le_refl _)
    rcases Res.ok_or_raise ht with ⟨⟨r, after⟩, h⟩ | ⟨e, h⟩
    · refine Or.inl ⟨r, after, h, ?_⟩
      rw [hp, h]
      rfl
    · refine Or.inr ⟨e, h, ?_⟩
      rw [hp, h]
      rfl
  · intro fulltextTokens searchContext
    exact (parse_composition specEnv fulltextTokens [] searchContext).2.1
  · intro env expressionTokens searchContext ha
    exact (parse_composition env [] expressionTokens searchContext).2.2 ha rfl

/-! ## Where an order clause can be in the tree -/

theorem mem_of_getElem? {α : Type} (l : List α) (i : Nat) (x : α) (h : l[i]? = some x) :
    x ∈ l := by
  rw [List.getElem?_eq_some] at h
  obtain ⟨hlt, hx⟩ := h
  rw [← hx]
  exact List.getElem_mem hlt

/-- A pass of the loop keeps the collected expressions free of order clauses
when the nested groups give such expressions. -/
theorem Iteration.orderFree {env : Env} {fuel : Nat} {tokens : List TokenGroup}
    {s next : LoopState} (h : Iteration env fuel tokens s next)
    (hgroups : ∀ g searchContext level r, TokenGroup.group g ∈ tokens →
      getExpression env fuel g searchContext level = .ok r → hasOrderByOption r.1 = false)
    (hs : ∀ e ∈ s.expressions, hasOrderByOption e = false) :
    ∀ e ∈ next.expressions, hasOrderByOption e = false := by
  have add : ∀ x : Option Exp, hasOrderByOption x = false →
      ∀ e ∈ s.expressions ++ [x], hasOrderByOption e = false := by
    intro x hx e he
    rcases List.mem_append.mp he with he | he
    · exact hs e he
    · rw [List.mem_singleton.mp he]
      exact hx
  cases h with
  | group g r h hr => exact add _ (hgroups g _ _ r (mem_of_getElem? _ _ _ h) hr)
  | bare t h ht => exact hs
  | attr t r h h1 h2 hr => exact add _ (parseAttribute_result env tokens _ _ _ _ hr).2
  | orderNested t h ht hl => exact hs
  | notToken t next h ht hn => exact hs
  | notGroup t g r h ht hn hr =>
    refine add _ ?_
    have := hgroups g _ _ r (mem_of_getElem? _ _ _ hn) hr
    simpa [hasOrderByOption, Exp.hasOrderBy] using this
  | note t r h ht hr => exact add _ ((path_result env tokens _).1 _ _ _ hr).2
  | connective t h ht => exact hs
  | operator t h ht => exact hs
  | other t h h1 h2 h3 h4 h5 h6 h7 => exact hs

end Parse
